import Mathlib

/-!
Shallow embedding of the collision core of `altena-core` (`src/frame.rs`):
the `MeshLeaf` / `MeshNode` / `MeshTree` occupancy structures, their
construction from RGBA pixel buffers, and the collision queries.

Modelling conventions:
* Rust `i16`/`u16`/`u32` arithmetic is modelled over `Int`/`Nat`; bit-level
  `u16` operations truncate explicitly with `% 65536`.
* `euclid::TypedRect<i16, DotSpace>` is modelled by `DotRect`, with
  `intersects`, `intersection` and `union` following euclid's
  implementation (strict inequalities, min/max corners, the empty-size
  special cases in `union`).
* `rect_iter::RectRange<T>` is modelled by `RectRange α`; a range is valid
  when `start ≤ end` on both axes, its iterator enumerates cells row by
  row with x varying fastest, and `Iterator::zip` truncates to the
  shorter sequence, as in the Rust crate.
* Rust panics (the mesh-size `panic!`, `unwrap`, shift overflow) are
  modelled by `Except.error ()` where a claim depends on them; casts such
  as `as usize` on values that are in range at every reachable call site
  are modelled by `Int.toNat` / `List.getD`.
* The recursion of `MeshTree::from_buf_` is driven by a fuel parameter;
  the fuel used by `from_buf` is proved sufficient for every buffer the
  code accepts (the recursion depth is bounded by the scale ceiling).
-/

namespace Altena

/-- `TILE_SIZE = 16`. -/
def TILE_SIZE : Nat := 16

/-- A point/offset in dot space (`TypedPoint2D<i16, DotSpace>`), as `Int × Int`. -/
abbrev DotPoint := Int × Int

/-- `euclid::TypedRect<i16, DotSpace>`: origin `(x, y)` and size `(w, h)`. -/
structure DotRect where
  x : Int
  y : Int
  w : Int
  h : Int
deriving DecidableEq, Repr

/-- `euclid::TypedRect::intersects`: strict inequalities on both axes. -/
def DotRect.intersects (a b : DotRect) : Bool :=
  decide (a.x < b.x + b.w) && decide (b.x < a.x + a.w) &&
  decide (a.y < b.y + b.h) && decide (b.y < a.y + a.h)

/-- `euclid::TypedRect::intersection`: `none` unless `intersects`. -/
def DotRect.intersection (a b : DotRect) : Option DotRect :=
  if a.intersects b then
    let ux := max a.x b.x
    let uy := max a.y b.y
    let lx := min (a.x + a.w) (b.x + b.w)
    let ly := min (a.y + a.h) (b.y + b.h)
    some ⟨ux, uy, lx - ux, ly - uy⟩
  else none

/-- `euclid::TypedRect::union`, including its zero-size special cases. -/
def DotRect.union (a b : DotRect) : DotRect :=
  if a.w = 0 ∧ a.h = 0 then b
  else if b.w = 0 ∧ b.h = 0 then a
  else
    let ux := min a.x b.x
    let uy := min a.y b.y
    let lx := max (a.x + a.w) (b.x + b.w)
    let ly := max (a.y + a.h) (b.y + b.h)
    ⟨ux, uy, lx - ux, ly - uy⟩

/-- `slide_rect` (frame.rs): translate a rectangle's origin by an offset. -/
def slide_rect (r : DotRect) (off : Int × Int) : DotRect :=
  { r with x := r.x + off.1, y := r.y + off.2 }

/-- `bbox_intersects` (frame.rs). -/
def bbox_intersects (bbox_1 bbox_2 : DotRect) (offset_1 offset_2 : DotPoint) : Bool :=
  (slide_rect bbox_1 offset_1).intersects (slide_rect bbox_2 offset_2)

/-- `bbox_intersection` (frame.rs). -/
def bbox_intersection (bbox_1 bbox_2 : DotRect) (offset_1 offset_2 : DotPoint) :
    Option DotRect :=
  (slide_rect bbox_1 offset_1).intersection (slide_rect bbox_2 offset_2)

/-- `rect_iter::RectRange<T>`: the half-open ranges `xs..xe` and `ys..ye`. -/
structure RectRange (α : Type) where
  xs : α
  xe : α
  ys : α
  ye : α
deriving DecidableEq, Repr

/-- `RectRange::new` with its validity check (`start ≤ end` on both axes). -/
def RectRange.new [LinearOrder α] (lx ly ux uy : α) : Option (RectRange α) :=
  if lx ≤ ux ∧ ly ≤ uy then some ⟨lx, ux, ly, uy⟩ else none

/-- `RectRange::zero_start`. -/
def RectRange.zero_start (x y : Nat) : Option (RectRange Nat) :=
  RectRange.new 0 0 x y

/-- `RectRange::from_corners`. -/
def RectRange.from_corners [LinearOrder α] (p q : α × α) : Option (RectRange α) :=
  RectRange.new p.1 p.2 q.1 q.2

/-- `RectRange::intersection` of two ranges. -/
def RectRange.inter [LinearOrder α] (a b : RectRange α) : Option (RectRange α) :=
  RectRange.new (max a.xs b.xs) (max a.ys b.ys) (min a.xe b.xe) (min a.ye b.ye)

/-- `RectRange::xlen`. -/
def RectRange.xlen [Sub α] (r : RectRange α) : α := r.xe - r.xs

/-- `RectRange::ylen`. -/
def RectRange.ylen [Sub α] (r : RectRange α) : α := r.ye - r.ys

/-- `RectRange::from_rect`. -/
def RectRange.from_rect (r : DotRect) : Option (RectRange Int) :=
  RectRange.new r.x r.y (r.x + r.w) (r.y + r.h)

/-- `RectRange::to_rect`. -/
def RectRange.to_rect (r : RectRange Int) : DotRect :=
  ⟨r.xs, r.ys, r.xe - r.xs, r.ye - r.ys⟩

/-- `RectRange::to_i16`: checked conversion of a `usize` range to `i16`. -/
def RectRange.to_i16 (r : RectRange Nat) : Option (RectRange Int) :=
  if r.xs < 32768 ∧ r.xe < 32768 ∧ r.ys < 32768 ∧ r.ye < 32768 then
    some ⟨(r.xs : Int), (r.xe : Int), (r.ys : Int), (r.ye : Int)⟩
  else none

/-- The cells of a `RectRange Nat` in iteration order: row by row, x fastest. -/
def RectRange.cells (r : RectRange Nat) : List (Nat × Nat) :=
  ((List.range' r.ys (r.ye - r.ys)).map
    (fun y => (List.range' r.xs (r.xe - r.xs)).map (fun x => (x, y)))).flatten

/-- `tile_rect()` (frame.rs): the 16×16 iteration range. -/
def tile_rect : RectRange Nat := ⟨0, 16, 0, 16⟩

/-- `tile_size()` as a rectangle at the origin (used by `get_tile_range`). -/
def tile_size_rect : DotRect := ⟨0, 0, 16, 16⟩

/-- `get_tile_range` (frame.rs): intersect the 16×16 tile with a rectangle
slid back by `-offset`, as a range. -/
def get_tile_range (rect : DotRect) (offset : DotPoint) : Option (RectRange Int) := do
  let r := slide_rect rect (-offset.1, -offset.2)
  let inter ← tile_size_rect.intersection r
  RectRange.from_rect inter

/-- `tile_num` (frame.rs). -/
def tile_num (len : Nat) : Nat := (len + TILE_SIZE - 1) / TILE_SIZE

/-- The `get_scale` closure of `MeshTree::from_buf_`, its
`for scale in 1..6` doubling loop unrolled; `none` models the
`panic!("Mesh size ... is too big")` branch. -/
def get_scale (max_len : Nat) : Option Nat :=
  if max_len ≤ 16 then some 1
  else if max_len ≤ 32 then some 2
  else if max_len ≤ 64 then some 3
  else if max_len ≤ 128 then some 4
  else if max_len ≤ 256 then some 5
  else none

/-- An RGBA pixel (`image::Rgba<u8>`): four channel bytes. -/
structure Rgba where
  r : Nat
  g : Nat
  b : Nat
  a : Nat
deriving DecidableEq, Repr

/-- A decoded pixel buffer (`image::RgbaImage`). Pixel lookup is total; every
reachable lookup in the collision core stays inside `width × height`. -/
structure RgbaImage where
  width : Nat
  height : Nat
  pix : Nat → Nat → Rgba

/-- `is_trans` (frame.rs): the whole alpha byte compared against zero. -/
def is_trans (p : Rgba) : Bool := p.a == 0

/-- `MeshLeaf`: 16 row masks (each a `u16`, bit `15 - x` = column `x`),
plus the bounding box of occupied pixels in tile-local coordinates. -/
structure MeshLeaf where
  inner : List Nat
  bbox : DotRect
deriving DecidableEq, Repr

/-- `MAGIC = 1 << (TILE_SIZE - 1)`. -/
def MAGIC : Nat := 2 ^ 15

/-- Fold state of `MeshLeaf::from_buf`: running min/max and the row masks. -/
structure LeafAcc where
  min_x : Nat
  min_y : Nat
  max_x : Nat
  max_y : Nat
  rows : List Nat
deriving DecidableEq, Repr

/-- One step of the `MeshLeaf::from_buf` fold: for a pair of a tile cell and
a buffer cell, record the bit and update the min/max when occupied. -/
def leafStep (buf : RgbaImage) (acc : LeafAcc) (p : (Nat × Nat) × (Nat × Nat)) : LeafAcc :=
  let x := p.1.1
  let y := p.1.2
  if is_trans (buf.pix p.2.1 p.2.2) then acc
  else
    { min_x := min acc.min_x x, min_y := min acc.min_y y,
      max_x := max acc.max_x x, max_y := max acc.max_y y,
      rows := acc.rows.set y (acc.rows.getD y 0 ||| (MAGIC >>> x)) }

/-- `MeshLeaf::from_buf`: fold the zipped tile/buffer iteration, then build
the bounding box from the tracked min/max (failing when nothing was set). -/
def MeshLeaf.from_buf (buf : RgbaImage) (range : RectRange Nat) : Option MeshLeaf := do
  let init : LeafAcc := ⟨TILE_SIZE, TILE_SIZE, 0, 0, List.replicate 16 0⟩
  let acc := (tile_rect.cells.zip range.cells).foldl (leafStep buf) init
  let rr ← RectRange.from_corners (acc.min_x, acc.min_y) (acc.max_x + 1, acc.max_y + 1)
  let rr16 ← rr.to_i16
  some ⟨acc.rows, rr16.to_rect⟩

/-- `TileDir`: quadrant direction of a child inside its parent node. -/
inductive TileDir where
  | LeftUp | RightUp | RightDown | LeftDown
deriving DecidableEq, Repr

/-- `TileDir::variants()`, in source order. -/
def TileDir.variants : List TileDir := [.LeftUp, .RightUp, .RightDown, .LeftDown]

/-- `TileDir::x`. -/
def TileDir.dx : TileDir → Int
  | .LeftUp => 0 | .RightUp => 1 | .RightDown => 1 | .LeftDown => 0

/-- `TileDir::y`. -/
def TileDir.dy : TileDir → Int
  | .LeftUp => 0 | .RightUp => 0 | .RightDown => 1 | .LeftDown => 1

/-- `TileDir::to_vec` at `u32` (used during construction). -/
def TileDir.nx : TileDir → Nat
  | .LeftUp => 0 | .RightUp => 1 | .RightDown => 1 | .LeftDown => 0

/-- `TileDir::to_vec` at `u32`, y component. -/
def TileDir.ny : TileDir → Nat
  | .LeftUp => 0 | .RightUp => 0 | .RightDown => 1 | .LeftDown => 1

mutual
/-- `MeshTree`: tagged union of leaf and node. -/
inductive MeshTree where
  | Leaf : MeshLeaf → MeshTree
  | Node : MeshNode → MeshTree

/-- `MeshNode`: children with their quadrant directions, aggregate bounding
box, and scale (the linear tier index stored as `i16`). -/
inductive MeshNode where
  | mk : MeshChildren → DotRect → Int → MeshNode

/-- The `Vec<(MeshTree, TileDir)>` of a node, as an inline list. -/
inductive MeshChildren where
  | nil : MeshChildren
  | cons : MeshTree → TileDir → MeshChildren → MeshChildren
end

/-- Field accessor: `MeshNode.inner`. -/
def MeshNode.inner : MeshNode → MeshChildren
  | .mk c _ _ => c

/-- Field accessor: `MeshNode.bbox`. -/
def MeshNode.bbox : MeshNode → DotRect
  | .mk _ b _ => b

/-- Field accessor: `MeshNode.scale`. -/
def MeshNode.scale : MeshNode → Int
  | .mk _ _ s => s

/-- The bounding box of a tree (the `match` used in `from_buf_`). -/
def MeshTree.bbox : MeshTree → DotRect
  | .Leaf l => l.bbox
  | .Node n => n.bbox

/-- The list of integers `s, s+1, ..., e-1` (a Rust `Range<i16>` iterator). -/
def intRange (s e : Int) : List Int :=
  (List.range (e - s).toNat).map (fun i => s + Int.ofNat i)

/-- The `line_mask` closure of `MeshLeaf::collide_l`, applied to a row `b`:
`(b << range.start) & (u16::MAX << (TILE_SIZE - len))`, in `u16`. -/
def line_mask (xs xe : Int) (b : Nat) : Nat :=
  let len := xe - xs
  let mask := (65535 <<< (16 - len.toNat)) % 65536
  ((b <<< xs.toNat) % 65536) &&& mask

/-- `MeshLeaf::collide_l`: intersect the slid bounding boxes, derive both
tile ranges, and find the first row pair whose masked rows share a bit. -/
def MeshLeaf.collide_l (l other : MeshLeaf) (offset_s offset_o : DotPoint) :
    Option DotRect := do
  let intersect ← bbox_intersection l.bbox other.bbox offset_s offset_o
  let range_s ← get_tile_range intersect offset_s
  let range_o ← get_tile_range intersect offset_o
  let ys := intRange range_s.ys range_s.ye
  let yo := intRange range_o.ys range_o.ye
  ((ys.zip yo).find? (fun p =>
      let masked_s := line_mask range_s.xs range_s.xe (l.inner.getD p.1.toNat 0)
      let masked_o := line_mask range_o.xs range_o.xe (other.inner.getD p.2.toNat 0)
      masked_s &&& masked_o != 0)).map (fun _ => intersect)

mutual
/-- `MeshLeaf::collide_n`: prune on the node's box, then try the node's
children in order, compensating by `dir * scale * (TILE_SIZE / 2)`. -/
def MeshLeaf.collide_n (l : MeshLeaf) (other : MeshNode) (offset_s offset_o : DotPoint) :
    Option DotRect :=
  match other with
  | .mk cs bbox scale =>
    if !(bbox_intersects l.bbox bbox offset_s offset_o) then none
    else collide_n_children l scale cs offset_s offset_o

/-- The child iteration of `MeshLeaf::collide_n` (`filter_map ... nth(0)`). -/
def collide_n_children (l : MeshLeaf) (scale : Int) (cs : MeshChildren)
    (offset_s offset_o : DotPoint) : Option DotRect :=
  match cs with
  | .nil => none
  | .cons child dir rest =>
    let offC : DotPoint := (offset_o.1 + dir.dx * scale * 8, offset_o.2 + dir.dy * scale * 8)
    let res : Option DotRect :=
      match child with
      | .Leaf leaf =>
        if !(bbox_intersects l.bbox leaf.bbox offset_s offC) then none
        else l.collide_l leaf offset_s offC
      | .Node node =>
        if !(bbox_intersects l.bbox node.bbox offset_s offC) then none
        else l.collide_n node offset_s offC
    match res with
    | some r => some r
    | none => collide_n_children l scale rest offset_s offset_o
end

mutual
/-- `MeshNode::collide`: prune on the two nodes' boxes, then try the first
node's children in order, compensating by `dir * scale * TILE_SIZE`. -/
def MeshNode.collide (n other : MeshNode) (offset_s offset_o : DotPoint) :
    Option DotRect :=
  match n with
  | .mk cs bbox scale =>
    if !(bbox_intersects bbox other.bbox offset_s offset_o) then none
    else node_collide_children scale cs other offset_s offset_o

/-- The child iteration of `MeshNode::collide` (`filter_map ... nth(0)`). -/
def node_collide_children (scale : Int) (cs : MeshChildren) (other : MeshNode)
    (offset_s offset_o : DotPoint) : Option DotRect :=
  match cs with
  | .nil => none
  | .cons child dir rest =>
    let offC : DotPoint := (offset_s.1 + dir.dx * scale * 16, offset_s.2 + dir.dy * scale * 16)
    let res : Option DotRect :=
      match child with
      | .Leaf leaf =>
        if !(bbox_intersects leaf.bbox other.bbox offC offset_o) then none
        else leaf.collide_n other offC offset_o
      | .Node node =>
        if !(bbox_intersects node.bbox other.bbox offC offset_o) then none
        else node.collide other offC offset_o
    match res with
    | some r => some r
    | none => node_collide_children scale rest other offset_s offset_o
end

/-- `MeshTree::collide`: dispatch on the variant pair. -/
def MeshTree.collide (t other : MeshTree) (offset_s offset_o : DotPoint) :
    Option DotRect :=
  match t, other with
  | .Leaf ls, .Leaf lo => ls.collide_l lo offset_s offset_o
  | .Leaf ls, .Node no => ls.collide_n no offset_s offset_o
  | .Node ns, .Leaf lo => lo.collide_n ns offset_o offset_s
  | .Node ns, .Node no => ns.collide no offset_s offset_o

/-- The quadrant loop of `MeshTree::from_buf_`: process the `TileDir`
variants in order, keeping the non-empty subtrees and folding their slid
bounding boxes (`bbox_res`) left to right. `go` is the recursive call. -/
def build_children (go : RectRange Nat → Except Unit (Option MeshTree))
    (range_orig : RectRange Nat) (child_scale : Nat) :
    List TileDir → Option DotRect → Except Unit (MeshChildren × Option DotRect)
  | [], acc => .ok (.nil, acc)
  | dir :: rest, acc =>
    let left_up : Nat × Nat := (dir.nx * child_scale * 16, dir.ny * child_scale * 16)
    let right_down : Nat × Nat := (left_up.1 + child_scale * 16, left_up.2 + child_scale * 16)
    match RectRange.from_corners left_up right_down with
    | none => .error ()
    | some divided =>
      match range_orig.inter divided with
      | none => build_children go range_orig child_scale rest acc
      | some inter =>
        match go inter with
        | .error e => .error e
        | .ok none => build_children go range_orig child_scale rest acc
        | .ok (some t) =>
          let bbox := slide_rect t.bbox ((left_up.1 : Int), (left_up.2 : Int))
          let acc2 : Option DotRect :=
            some (match acc with
              | some b => b.union bbox
              | none => bbox)
          match build_children go range_orig child_scale rest acc2 with
          | .error e => .error e
          | .ok (cs, bb) => .ok (.cons t dir cs, bb)

/-- `MeshTree::from_buf_`, fuel-indexed: `error` models the panic (and fuel
exhaustion, proved unreachable for accepted sizes), the inner `Option`
models the empty-region absence. -/
def MeshTree.from_buf_ (buf : RgbaImage) : Nat → RectRange Nat → Except Unit (Option MeshTree)
  | 0, _ => .error ()
  | fuel + 1, range_orig =>
    match get_scale (max range_orig.xlen range_orig.ylen) with
    | none => .error ()
    | some scale =>
      if scale = 1 then
        .ok ((MeshLeaf.from_buf buf range_orig).map MeshTree.Leaf)
      else
        let child_scale := scale / 2
        match build_children (MeshTree.from_buf_ buf fuel) range_orig child_scale
            TileDir.variants none with
        | .error e => .error e
        | .ok (cs, some bbox) => .ok (some (.Node (.mk cs bbox (scale : Int))))
        | .ok (_, none) => .ok none

/-- `MeshTree::from_buf`: the whole-buffer range, then `from_buf_`. The fuel
6 exceeds the recursion depth of every accepted buffer. -/
def MeshTree.from_buf (buf : RgbaImage) : Except Unit (Option MeshTree) :=
  match RectRange.zero_start buf.width buf.height with
  | none => .error ()
  | some range => MeshTree.from_buf_ buf 6 range

/-- `Color` (frame.rs): plain RGB. -/
structure Color where
  r : Nat
  g : Nat
  b : Nat
deriving DecidableEq, Repr

/-- `Color::from_rgba` (frame.rs): `none` for a transparent pixel. -/
def Color.from_rgba (p : Rgba) : Option Color :=
  if is_trans p then none else some ⟨p.r, p.g, p.b⟩

/-- `Tile` (frame.rs): a 16×16 block of optional colors, row-major. -/
structure Tile where
  inner : List (Option Color)
deriving DecidableEq, Repr

/-- `Tile::default()`: all cells transparent. -/
def Tile.default : Tile := ⟨List.replicate 256 none⟩

/-- `rect_iter::gen_rect_conv` at `Tile`: start from the default tile and
copy the converted source cells, pairing the two iteration orders. -/
def gen_rect_conv (buf : RgbaImage) (buf_rect to_rect : RectRange Nat) : Tile :=
  (buf_rect.cells.zip to_rect.cells).foldl
    (fun t p => ⟨t.inner.set (p.2.2 * 16 + p.2.1) (Color.from_rgba (buf.pix p.1.1 p.1.2))⟩)
    Tile.default

/-- `Frame` (frame.rs): render tiles plus the collision tree. -/
structure Frame where
  name : String
  tiles : List (Tile × (Nat × Nat))
  mesh : MeshTree
  w_orig : Nat
  h_orig : Nat

/-- `Frame::from_buf`: build the tile grid, then require a collision mesh;
`.ok none` models the `?`-propagated absence (fully transparent image),
`.error` the panic inside mesh construction. -/
def Frame.from_buf (buf : RgbaImage) (name : String) : Except Unit (Option Frame) :=
  match RectRange.zero_start (tile_num buf.width) (tile_num buf.height) with
  | none => .ok none
  | some range0 =>
    let range : RectRange Nat :=
      ⟨range0.xs + 1, range0.xe + 1, range0.ys + 1, range0.ye + 1⟩
    let tiles := range.cells.map (fun tp =>
      let sx := TILE_SIZE * (tp.1 - 1)
      let sy := TILE_SIZE * (tp.2 - 1)
      let buf_rect : RectRange Nat :=
        ⟨sx, min (sx + TILE_SIZE) buf.width, sy, min (sy + TILE_SIZE) buf.height⟩
      (gen_rect_conv buf buf_rect tile_rect, (tp.1 - 1, tp.2 - 1)))
    match MeshTree.from_buf buf with
    | .error e => .error e
    | .ok none => .ok none
    | .ok (some mesh) => .ok (some ⟨name, tiles, mesh, buf.width, buf.height⟩)

/-! ### Statement-level helper predicates -/

/-- Integer point containment in a rectangle (half-open on both axes). -/
def inRectB (r : DotRect) (p : Int × Int) : Bool :=
  decide (r.x ≤ p.1) && decide (p.1 < r.x + r.w) &&
  decide (r.y ≤ p.2) && decide (p.2 < r.y + r.h)

/-- The buffer, its upper-left corner placed at world offset `off`, has an
occupied (non-transparent) pixel at the world point `p`. -/
def occupiedWorldB (buf : RgbaImage) (off : DotPoint) (p : Int × Int) : Bool :=
  decide (off.1 ≤ p.1) && decide (off.2 ≤ p.2) &&
  decide ((p.1 - off.1).toNat < buf.width) && decide ((p.2 - off.2).toNat < buf.height) &&
  !is_trans (buf.pix (p.1 - off.1).toNat (p.2 - off.2).toNat)

/-- Some world point of `r` is occupied in both placed buffers. -/
def anyOverlapIn (r : DotRect) (b1 b2 : RgbaImage) (o1 o2 : DotPoint) : Bool :=
  (intRange r.x (r.x + r.w)).any fun px =>
    (intRange r.y (r.y + r.h)).any fun py =>
      occupiedWorldB b1 o1 (px, py) && occupiedWorldB b2 o2 (px, py)

/-- Every pixel of the buffer is transparent. -/
def all_trans (buf : RgbaImage) : Bool :=
  (List.range buf.width).all fun x =>
    (List.range buf.height).all fun y => is_trans (buf.pix x y)

/-- The tree constructed for a buffer (`none` also on the panic path). -/
def treeOfBuf (buf : RgbaImage) : Option MeshTree :=
  match MeshTree.from_buf buf with
  | .ok t => t
  | .error _ => none

/-- Construct both trees and run one collision query; `none` when either
buffer yields no tree. -/
def collideOfBufs (b1 b2 : RgbaImage) (o1 o2 : DotPoint) : Option (Option DotRect) :=
  match MeshTree.from_buf b1, MeshTree.from_buf b2 with
  | .ok (some t1), .ok (some t2) => some (t1.collide t2 o1 o2)
  | _, _ => none

/-- A pixel buffer whose pixels at the listed coordinates are opaque black
and all other pixels fully transparent. -/
def mkBuf (w h : Nat) (occ : List (Nat × Nat)) : RgbaImage :=
  ⟨w, h, fun x y => if (x, y) ∈ occ then ⟨0, 0, 0, 255⟩ else ⟨0, 0, 0, 0⟩⟩

/-- The `collision_bits` convention of `tile.rs` (`AltenaAlpha`): the low
four bits of the packed alpha byte. -/
def collision_bits (v : Nat) : Nat := v &&& 15

/-- Modelled from the spec: "the smallest power-of-two multiple of the tile
size whose side length is ≥ max(region width, region height)", with the
same five-tier ceiling as the code. -/
def scale_spec (max_len : Nat) : Option Nat :=
  if max_len ≤ 16 then some 1
  else if max_len ≤ 32 then some 2
  else if max_len ≤ 64 then some 4
  else if max_len ≤ 128 then some 8
  else if max_len ≤ 256 then some 16
  else none

/-- Is the construction result "absent" (`Ok(None)`)? -/
def isOkNone (e : Except Unit (Option MeshTree)) : Bool :=
  match e with
  | .ok none => true
  | _ => false

/-- Did construction return a tree (`Ok(Some(_))`)? -/
def isOkSome (e : Except Unit (Option MeshTree)) : Bool :=
  match e with
  | .ok (some _) => true
  | _ => false

/-! ### Concrete buffers used in counterexamples and witnesses -/

/-- 32×32, occupied at (1,0) (LeftUp quadrant) and (16,0) (RightUp). -/
def buf_a : RgbaImage := mkBuf 32 32 [(1, 0), (16, 0)]

/-- 32×32, occupied at (2,0) (LeftUp quadrant) and (24,0) (RightUp). -/
def buf_b : RgbaImage := mkBuf 32 32 [(2, 0), (24, 0)]

/-- 32×32, occupied at (16,0) only (RightUp quadrant). -/
def buf_c : RgbaImage := mkBuf 32 32 [(16, 0)]

/-- 32×32, occupied at (0,0) only (LeftUp quadrant). -/
def buf_d : RgbaImage := mkBuf 32 32 [(0, 0)]

/-- 33×1, occupied at (32,0) only: the column that quadrant subdivision at
the linear tier 3 never visits. -/
def buf_e : RgbaImage := mkBuf 33 1 [(32, 0)]

/-- 16×1, one pixel whose packed alpha byte is `0b10000000`: the visible
alpha nibble is non-zero, the collision bits are all zero. -/
def buf_high_nibble : RgbaImage :=
  ⟨16, 1, fun x y => if x = 0 ∧ y = 0 then ⟨0, 0, 0, 128⟩ else ⟨0, 0, 0, 0⟩⟩

/-- 16×1, fully transparent. -/
def buf_clear : RgbaImage := mkBuf 16 1 []

/-- 16×1, opaque pixel at (0,0). -/
def buf_one : RgbaImage := mkBuf 16 1 [(0, 0)]

/-- The leaf constructed from `buf_one` (bit (0,0); bounding box (0,0,1,1)). -/
def leaf_one : MeshLeaf :=
  ⟨[32768, 0, 0, 0, 0, 0, 0, 0, 0, 0, 0, 0, 0, 0, 0, 0], ⟨0, 0, 1, 1⟩⟩

/-! ### Invariant predicates and the spec-side leaf query -/

/-- Coordinate containment of rectangle `s` inside `r`. -/
def rectContains (r s : DotRect) : Prop :=
  r.x ≤ s.x ∧ s.x + s.w ≤ r.x + r.w ∧ r.y ≤ s.y ∧ s.y + s.h ≤ r.y + r.h

/-- A rectangle of positive size. -/
def PosRect (r : DotRect) : Prop := 0 < r.w ∧ 0 < r.h

/-- The leaf's bounding box lies inside the 16×16 tile. -/
def bboxSubTile (l : MeshLeaf) : Prop :=
  0 ≤ l.bbox.x ∧ l.bbox.x + l.bbox.w ≤ 16 ∧ 0 ≤ l.bbox.y ∧ l.bbox.y + l.bbox.h ≤ 16

/-- Every set occupancy bit of the leaf lies inside its bounding box
(bit `15 - x` of row `y` encodes column `x`). -/
def LeafBitsInBbox (l : MeshLeaf) : Prop :=
  ∀ x y : Nat, x < 16 → y < 16 → Nat.testBit (l.inner.getD y 0) (15 - x) = true →
    l.bbox.x ≤ (x : Int) ∧ (x : Int) < l.bbox.x + l.bbox.w ∧
    l.bbox.y ≤ (y : Int) ∧ (y : Int) < l.bbox.y + l.bbox.h

/-- The offset of a child quadrant inside a node of the given scale, as
used by construction (`dir * (scale / 2) * TILE_SIZE`). -/
def quadOffset (scale : Int) (d : TileDir) : DotPoint :=
  (d.dx * (scale / 2) * 16, d.dy * (scale / 2) * 16)

mutual
/-- C4's containment invariant at a tree: leaf bits inside the leaf box,
and every node box containing each child's translated box, recursively. -/
def TreeBoxesOK : MeshTree → Prop
  | .Leaf l => LeafBitsInBbox l
  | .Node n => NodeBoxesOK n

/-- C4's containment invariant at a node. -/
def NodeBoxesOK : MeshNode → Prop
  | .mk cs bbox scale => ChildrenBoxesOK cs bbox scale

/-- C4's containment invariant over a child list. -/
def ChildrenBoxesOK : MeshChildren → DotRect → Int → Prop
  | .nil, _, _ => True
  | .cons t d rest, bbox, scale =>
    rectContains bbox (slide_rect t.bbox (quadOffset scale d)) ∧
    TreeBoxesOK t ∧ ChildrenBoxesOK rest bbox scale
end

/-- Specification of the `MeshLeaf::from_buf` fold state after processing
`pairs`: 16 rows whose bits record exactly the occupied processed pairs,
min/max bounding every occupied tile coordinate, and the untouched initial
state when nothing was occupied. -/
def LeafFoldSpec (buf : RgbaImage) (pairs : List ((Nat × Nat) × (Nat × Nat)))
    (acc : LeafAcc) : Prop :=
  acc.rows.length = 16 ∧
  (∀ x y : Nat, x < 16 → y < 16 →
    (Nat.testBit (acc.rows.getD y 0) (15 - x) = true ↔
      ∃ b, ((x, y), b) ∈ pairs ∧ is_trans (buf.pix b.1 b.2) = false)) ∧
  (∀ t b, (t, b) ∈ pairs → is_trans (buf.pix b.1 b.2) = false →
    acc.min_x ≤ t.1 ∧ t.1 ≤ acc.max_x ∧ acc.min_y ≤ t.2 ∧ t.2 ≤ acc.max_y ∧
    acc.max_x < 16 ∧ acc.max_y < 16) ∧
  ((∀ t b, (t, b) ∈ pairs → is_trans (buf.pix b.1 b.2) = true) →
    acc = ⟨TILE_SIZE, TILE_SIZE, 0, 0, List.replicate 16 0⟩)

/-- The §4.1 description of the leaf query, stated from the spec's words:
intersect the two translated boxes; when nonempty, take each leaf's local
column range of the intersection, mask and shift each row, and report the
intersection rectangle exactly when some row of the intersecting row range
shares a set bit (the code stops at the first such row; the returned value
only reveals existence). -/
def collide_l_spec (l1 l2 : MeshLeaf) (o1 o2 : DotPoint) : Option DotRect :=
  match bbox_intersection l1.bbox l2.bbox o1 o2 with
  | none => none
  | some inter =>
    if (List.range inter.h.toNat).any (fun k =>
        line_mask (inter.x - o1.1) (inter.x + inter.w - o1.1)
            (l1.inner.getD (inter.y - o1.2 + (k : Int)).toNat 0) &&&
        line_mask (inter.x - o2.1) (inter.x + inter.w - o2.1)
            (l2.inner.getD (inter.y - o2.2 + (k : Int)).toNat 0) != 0)
    then some inter
    else none

/-! ### Claim theorems and supporting lemmas -/

/-- Characterization of a successful euclid rectangle intersection:
corners are max/min of the arguments, and the strict overlap tests hold. -/
theorem intersection_char {a b r : DotRect} (h : a.intersection b = some r) :
    r.x = max a.x b.x ∧ r.y = max a.y b.y ∧
    r.x + r.w = min (a.x + a.w) (b.x + b.w) ∧
    r.y + r.h = min (a.y + a.h) (b.y + b.h) ∧
    a.x < b.x + b.w ∧ b.x < a.x + a.w ∧ a.y < b.y + b.h ∧ b.y < a.y + a.h := by
  unfold DotRect.intersection at h
  split at h
  case isTrue hc =>
    unfold DotRect.intersects at hc
    simp only [Bool.and_eq_true, decide_eq_true_eq] at hc
    obtain ⟨⟨⟨h1, h2⟩, h3⟩, h4⟩ := hc
    rw [Option.some_inj] at h
    subst h
    refine ⟨rfl, rfl, ?_, ?_, h1, h2, h3, h4⟩ <;> simp
  case isFalse => exact absurd h (by simp)

/-- A successful intersection of two positive rectangles has positive
width and height. -/
theorem intersection_pos {a b r : DotRect} (ha : PosRect a) (hb : PosRect b)
    (h : a.intersection b = some r) : 0 < r.w ∧ 0 < r.h := by
  obtain ⟨hx, hy, hxe, hye, h1, h2, h3, h4⟩ := intersection_char h
  obtain ⟨ha1, ha2⟩ := ha
  obtain ⟨hb1, hb2⟩ := hb
  constructor <;> omega

/-- The intersection is contained in both arguments. -/
theorem intersection_subset {a b r : DotRect} (h : a.intersection b = some r) :
    rectContains a r ∧ rectContains b r := by
  obtain ⟨hx, hy, hxe, hye, h1, h2, h3, h4⟩ := intersection_char h
  unfold rectContains
  refine ⟨⟨?_, ?_, ?_, ?_⟩, ⟨?_, ?_, ?_, ?_⟩⟩ <;> omega

/-- `get_tile_range` on a positive rectangle only produces ranges inside
`[0,16)` on both axes, nonempty on both axes. -/
theorem get_tile_range_bounds {rect : DotRect} {off : DotPoint} {rr : RectRange Int}
    (hp : PosRect rect) (h : get_tile_range rect off = some rr) :
    0 ≤ rr.xs ∧ rr.xs < rr.xe ∧ rr.xe ≤ 16 ∧
    0 ≤ rr.ys ∧ rr.ys < rr.ye ∧ rr.ye ≤ 16 := by
  unfold get_tile_range at h
  simp only [Option.bind_eq_bind, Option.bind_eq_some] at h
  obtain ⟨inter, hint, hfr⟩ := h
  obtain ⟨hx, hy, hxe, hye, h1, h2, h3, h4⟩ := intersection_char hint
  obtain ⟨hp1, hp2⟩ := hp
  unfold RectRange.from_rect RectRange.new at hfr
  split at hfr
  case isTrue hcond =>
    rw [Option.some_inj] at hfr
    subst hfr
    simp only [tile_size_rect, slide_rect] at hx hy hxe hye h1 h2 h3 h4
    refine ⟨?_, ?_, ?_, ?_, ?_, ?_⟩ <;> simp <;> omega
  case isFalse => exact absurd hfr (by simp)

/-- Membership in the cell enumeration of a range. -/
theorem mem_cells {r : RectRange Nat} {c : Nat × Nat} :
    c ∈ r.cells ↔ r.xs ≤ c.1 ∧ c.1 < r.xe ∧ r.ys ≤ c.2 ∧ c.2 < r.ye := by
  unfold RectRange.cells
  simp only [List.mem_flatten, List.mem_map]
  constructor
  · rintro ⟨row, ⟨y, hy, rfl⟩, hc⟩
    simp only [List.mem_map] at hc
    obtain ⟨x, hx, rfl⟩ := hc
    rw [List.mem_range'_1] at hy hx
    simp only []
    omega
  · rintro ⟨h1, h2, h3, h4⟩
    refine ⟨(List.range' r.xs (r.xe - r.xs)).map (fun x => (x, c.2)), ⟨c.2, ?_, rfl⟩, ?_⟩
    · rw [List.mem_range'_1]; omega
    · simp only [List.mem_map]
      exact ⟨c.1, by rw [List.mem_range'_1]; omega, by simp⟩

/-- `getD` after `set` at the same (in-range) index. -/
theorem getD_set_lt (l : List Nat) (i a : Nat) (h : i < l.length) :
    (l.set i a).getD i 0 = a := by
  simp [List.getD_eq_getElem?_getD, List.getElem?_set_self, h]

/-- `getD` after `set` at a different index. -/
theorem getD_set_ne (l : List Nat) (i j a : Nat) (h : i ≠ j) :
    (l.set i a).getD j 0 = l.getD j 0 := by
  simp [List.getD_eq_getElem?_getD, List.getElem?_set_ne h]

/-- `MAGIC >> x` is the single bit `15 - x`. -/
theorem magic_shift (x : Nat) (hx : x ≤ 15) : MAGIC >>> x = 2 ^ (15 - x) := by
  rw [MAGIC, Nat.shiftRight_eq_div_pow, Nat.pow_div hx (by norm_num)]

/-- The `MeshLeaf::from_buf` fold establishes `LeafFoldSpec`. -/
theorem leaf_fold_spec (buf : RgbaImage) (pairs : List ((Nat × Nat) × (Nat × Nat)))
    (h16 : ∀ p ∈ pairs, p.1.1 < 16 ∧ p.1.2 < 16) :
    LeafFoldSpec buf pairs
      (pairs.foldl (leafStep buf) ⟨TILE_SIZE, TILE_SIZE, 0, 0, List.replicate 16 0⟩) := by
  induction pairs using List.reverseRecOn with
  | nil =>
    refine ⟨by simp, ?_, by simp, fun _ => rfl⟩
    intro x y hx hy
    have hz : (List.replicate 16 (0 : Nat)).getD y 0 = 0 := by
      rw [List.getD_eq_getElem?_getD, List.getElem?_replicate]
      split <;> rfl
    constructor
    · intro hbit
      rw [show (List.foldl (leafStep buf)
          ⟨TILE_SIZE, TILE_SIZE, 0, 0, List.replicate 16 0⟩ []).rows
          = List.replicate 16 0 from rfl, hz] at hbit
      simp at hbit
    · rintro ⟨b, hb, -⟩
      exact absurd hb (by simp)
  | append_singleton l p ih =>
    have h16l : ∀ q ∈ l, q.1.1 < 16 ∧ q.1.2 < 16 := fun q hq => h16 q (by simp [hq])
    have h16p := h16 p (by simp)
    obtain ⟨ihlen, ihbit, ihmm, ihinit⟩ := ih h16l
    obtain ⟨⟨tx, ty⟩, b0⟩ := p
    have htx : tx < 16 := h16p.1
    have hty : ty < 16 := h16p.2
    rw [List.foldl_append]
    set acc := l.foldl (leafStep buf) ⟨TILE_SIZE, TILE_SIZE, 0, 0, List.replicate 16 0⟩
      with hacc
    by_cases htr : is_trans (buf.pix b0.1 b0.2) = true
    · have hstep : leafStep buf acc ((tx, ty), b0) = acc := by
        simp [leafStep, htr]
      simp only [List.foldl_cons, List.foldl_nil, hstep]
      refine ⟨ihlen, ?_, ?_, ?_⟩
      · intro x y hx hy
        rw [ihbit x y hx hy]
        constructor
        · rintro ⟨b, hb, hocc⟩
          exact ⟨b, by simp [hb], hocc⟩
        · rintro ⟨b, hb, hocc⟩
          rcases List.mem_append.mp hb with h | h
          · exact ⟨b, h, hocc⟩
          · simp only [List.mem_singleton] at h
            cases h
            exact absurd htr (by simp [hocc])
      · intro t b hmem hocc
        rcases List.mem_append.mp hmem with h | h
        · exact ihmm t b h hocc
        · simp only [List.mem_singleton] at h
          cases h
          exact absurd htr (by simp [hocc])
      · intro hall
        exact ihinit fun t b hb => hall t b (by simp [hb])
    · have htr' : is_trans (buf.pix b0.1 b0.2) = false := by
        cases hv : is_trans (buf.pix b0.1 b0.2)
        · rfl
        · exact absurd hv htr
      have hstep : leafStep buf acc ((tx, ty), b0) =
          ⟨min acc.min_x tx, min acc.min_y ty, max acc.max_x tx, max acc.max_y ty,
            acc.rows.set ty (acc.rows.getD ty 0 ||| MAGIC >>> tx)⟩ := by
        simp [leafStep, htr']
      simp only [List.foldl_cons, List.foldl_nil, hstep]
      refine ⟨by simpa using ihlen, ?_, ?_, ?_⟩
      · intro x y hx hy
        by_cases hy' : y = ty
        · subst hy'
          rw [getD_set_lt _ _ _ (by omega)]
          rw [Nat.testBit_or, magic_shift tx (by omega), Nat.testBit_two_pow]
          by_cases hx' : x = tx
          · subst hx'
            simp only [decide_eq_true_eq]
            constructor
            · intro _
              exact ⟨b0, by simp, htr'⟩
            · intro _
              simp
          · have : ¬(15 - tx = 15 - x) := by omega
            simp only [this, decide_False, Bool.or_false]
            rw [ihbit x y hx hy]
            constructor
            · rintro ⟨b, hb, hocc⟩
              exact ⟨b, by simp [hb], hocc⟩
            · rintro ⟨b, hb, hocc⟩
              rcases List.mem_append.mp hb with h | h
              · exact ⟨b, h, hocc⟩
              · simp only [List.mem_singleton, Prod.mk.injEq] at h
                exact absurd h.1.1 hx'
        · rw [getD_set_ne _ _ _ _ (fun h => hy' h.symm)]
          rw [ihbit x y hx hy]
          constructor
          · rintro ⟨b, hb, hocc⟩
            exact ⟨b, by simp [hb], hocc⟩
          · rintro ⟨b, hb, hocc⟩
            rcases List.mem_append.mp hb with h | h
            · exact ⟨b, h, hocc⟩
            · simp only [List.mem_singleton, Prod.mk.injEq] at h
              exact absurd h.1.2 hy'
      · intro t b hmem hocc
        by_cases hl : ∃ q ∈ l, is_trans (buf.pix q.2.1 q.2.2) = false
        · obtain ⟨⟨t', b'⟩, hq, hq'⟩ := hl
          obtain ⟨_, _, _, _, hmx, hmy⟩ := ihmm t' b' hq hq'
          rcases List.mem_append.mp hmem with h | h
          · obtain ⟨u1, u2, u3, u4, _, _⟩ := ihmm t b h hocc
            show min acc.min_x tx ≤ t.1 ∧ t.1 ≤ max acc.max_x tx ∧
              min acc.min_y ty ≤ t.2 ∧ t.2 ≤ max acc.max_y ty ∧
              max acc.max_x tx < 16 ∧ max acc.max_y ty < 16
            omega
          · simp only [List.mem_singleton, Prod.mk.injEq] at h
            obtain ⟨ht, -⟩ := h
            subst ht
            show min acc.min_x tx ≤ (tx, ty).1 ∧ (tx, ty).1 ≤ max acc.max_x tx ∧
              min acc.min_y ty ≤ (tx, ty).2 ∧ (tx, ty).2 ≤ max acc.max_y ty ∧
              max acc.max_x tx < 16 ∧ max acc.max_y ty < 16
            simp only [Prod.fst, Prod.snd]
            omega
        · push_neg at hl
          have hallt : ∀ t' b', (t', b') ∈ l → is_trans (buf.pix b'.1 b'.2) = true := by
            intro t' b' hq
            have := hl (t', b') hq
            cases hv : is_trans (buf.pix b'.1 b'.2)
            · exact absurd hv this
            · rfl
          have := ihinit hallt
          rw [this]
          rcases List.mem_append.mp hmem with h | h
          · exact absurd hocc (by simp [hallt t b h])
          · simp only [List.mem_singleton, Prod.mk.injEq] at h
            obtain ⟨ht, -⟩ := h
            subst ht
            show min TILE_SIZE tx ≤ (tx, ty).1 ∧ (tx, ty).1 ≤ max 0 tx ∧
              min TILE_SIZE ty ≤ (tx, ty).2 ∧ (tx, ty).2 ≤ max 0 ty ∧
              max 0 tx < 16 ∧ max 0 ty < 16
            simp only [Prod.fst, Prod.snd, TILE_SIZE]
            omega
      · intro hall
        have := hall (tx, ty) b0 (by simp)
        exact absurd this (by simp [htr'])

/-- Characterization of a successfully constructed leaf: 16 rows, positive
bounding box inside the tile, all bits inside the box, and bits recording
exactly the occupied pairs of the zipped tile/buffer iteration. -/
theorem leaf_from_buf_char {buf : RgbaImage} {range : RectRange Nat} {l : MeshLeaf}
    (h : MeshLeaf.from_buf buf range = some l) :
    l.inner.length = 16 ∧ PosRect l.bbox ∧ bboxSubTile l ∧ LeafBitsInBbox l ∧
    (∀ x y : Nat, x < 16 → y < 16 →
      (Nat.testBit (l.inner.getD y 0) (15 - x) = true ↔
        ∃ b, ((x, y), b) ∈ tile_rect.cells.zip range.cells ∧
          is_trans (buf.pix b.1 b.2) = false)) := by
  have h16 : ∀ p ∈ tile_rect.cells.zip range.cells, p.1.1 < 16 ∧ p.1.2 < 16 := by
    intro p hp
    have hm := (List.of_mem_zip hp).1
    rw [mem_cells] at hm
    exact ⟨hm.2.1, hm.2.2.2⟩
  obtain ⟨hlen, hbit, hmm, hinit⟩ := leaf_fold_spec buf (tile_rect.cells.zip range.cells) h16
  unfold MeshLeaf.from_buf at h
  simp only [Option.bind_eq_bind, Option.bind_eq_some] at h
  obtain ⟨rr, hrr, h⟩ := h
  obtain ⟨rr16, hrr16, h⟩ := h
  rw [Option.some_inj] at h
  subst h
  set acc := (tile_rect.cells.zip range.cells).foldl (leafStep buf)
    ⟨TILE_SIZE, TILE_SIZE, 0, 0, List.replicate 16 0⟩ with hacc
  have hocc : ∃ t b, (t, b) ∈ tile_rect.cells.zip range.cells ∧
      is_trans (buf.pix b.1 b.2) = false := by
    by_contra hno
    push_neg at hno
    have hall : ∀ t b, (t, b) ∈ tile_rect.cells.zip range.cells →
        is_trans (buf.pix b.1 b.2) = true := by
      intro t b htb
      have hne := hno t b htb
      cases hv : is_trans (buf.pix b.1 b.2)
      · exact absurd hv hne
      · rfl
    have hini := hinit hall
    rw [hini] at hrr
    simp [RectRange.from_corners, RectRange.new, TILE_SIZE] at hrr
  obtain ⟨t0, b0, ht0, hb0⟩ := hocc
  obtain ⟨hm1, hm2, hm3, hm4, hm5, hm6⟩ := hmm t0 b0 ht0 hb0
  have hrr' : rr = ⟨acc.min_x, acc.max_x + 1, acc.min_y, acc.max_y + 1⟩ := by
    unfold RectRange.from_corners RectRange.new at hrr
    rw [if_pos (by constructor <;> omega)] at hrr
    rw [Option.some_inj] at hrr
    exact hrr.symm
  subst hrr'
  have hrr16' : rr16 = ⟨(acc.min_x : Int), (acc.max_x + 1 : Nat), (acc.min_y : Int),
      (acc.max_y + 1 : Nat)⟩ := by
    unfold RectRange.to_i16 at hrr16
    rw [if_pos (by refine ⟨?_, ?_, ?_, ?_⟩ <;> simp <;> omega)] at hrr16
    rw [Option.some_inj] at hrr16
    exact hrr16.symm
  subst hrr16'
  refine ⟨hlen, ?_, ?_, ?_, ?_⟩
  · show PosRect (RectRange.to_rect _)
    unfold RectRange.to_rect PosRect
    constructor <;> simp <;> omega
  · unfold bboxSubTile RectRange.to_rect
    refine ⟨?_, ?_, ?_, ?_⟩ <;> simp <;> omega
  · intro x y hx hy hb
    obtain ⟨b, hmemb, hoccb⟩ := (hbit x y hx hy).mp hb
    obtain ⟨u1, u2, u3, u4, u5, u6⟩ := hmm (x, y) b hmemb hoccb
    unfold RectRange.to_rect
    refine ⟨?_, ?_, ?_, ?_⟩ <;> simp <;> omega
  · exact hbit

/-- C10: for leaves produced by `MeshLeaf::from_buf`, whenever `collide_l`
reaches its mask construction (the bounding boxes intersect and both tile
ranges exist), the column-range length is between 1 and 16 and the range
start between 0 and 15, so both `u16` shifts — by `16 - len` and by the
range start — are by fewer than 16 bits and cannot overflow. -/
theorem collide_l_shift_safety (b1 : RgbaImage) (r1 : RectRange Nat) (l1 : MeshLeaf)
    (b2 : RgbaImage) (r2 : RectRange Nat) (l2 : MeshLeaf)
    (h1 : MeshLeaf.from_buf b1 r1 = some l1) (h2 : MeshLeaf.from_buf b2 r2 = some l2)
    (o1 o2 : DotPoint) (inter : DotRect) (rs ro : RectRange Int)
    (hi : bbox_intersection l1.bbox l2.bbox o1 o2 = some inter)
    (hs : get_tile_range inter o1 = some rs)
    (ho : get_tile_range inter o2 = some ro) :
    (1 ≤ rs.xlen ∧ rs.xlen ≤ 16 ∧ 0 ≤ rs.xs ∧ rs.xs ≤ 15 ∧
     1 ≤ ro.xlen ∧ ro.xlen ≤ 16 ∧ 0 ≤ ro.xs ∧ ro.xs ≤ 15) ∧
    (16 - rs.xlen.toNat < 16 ∧ rs.xs.toNat < 16 ∧
     16 - ro.xlen.toNat < 16 ∧ ro.xs.toNat < 16) := by
  have hp1 : PosRect (slide_rect l1.bbox o1) := (leaf_from_buf_char h1).2.1
  have hp2 : PosRect (slide_rect l2.bbox o2) := (leaf_from_buf_char h2).2.1
  have hpi : PosRect inter := by
    have := intersection_pos hp1 hp2 hi
    exact ⟨this.1, this.2⟩
  obtain ⟨hs1, hs2, hs3, hs4, hs5, hs6⟩ := get_tile_range_bounds hpi hs
  obtain ⟨ho1, ho2, ho3, ho4, ho5, ho6⟩ := get_tile_range_bounds hpi ho
  unfold RectRange.xlen
  constructor
  · refine ⟨?_, ?_, ?_, ?_, ?_, ?_, ?_, ?_⟩ <;> omega
  · refine ⟨?_, ?_, ?_, ?_⟩ <;> omega

/-- Witness for the shift-safety theorem at a concrete pair of leaves. -/
theorem collide_l_shift_safety_witness :
    (1 ≤ (⟨0, 1, 0, 1⟩ : RectRange Int).xlen ∧ (⟨0, 1, 0, 1⟩ : RectRange Int).xlen ≤ 16 ∧
     0 ≤ (⟨0, 1, 0, 1⟩ : RectRange Int).xs ∧ (⟨0, 1, 0, 1⟩ : RectRange Int).xs ≤ 15 ∧
     1 ≤ (⟨0, 1, 0, 1⟩ : RectRange Int).xlen ∧ (⟨0, 1, 0, 1⟩ : RectRange Int).xlen ≤ 16 ∧
     0 ≤ (⟨0, 1, 0, 1⟩ : RectRange Int).xs ∧ (⟨0, 1, 0, 1⟩ : RectRange Int).xs ≤ 15) ∧
    (16 - (⟨0, 1, 0, 1⟩ : RectRange Int).xlen.toNat < 16 ∧
     (⟨0, 1, 0, 1⟩ : RectRange Int).xs.toNat < 16 ∧
     16 - (⟨0, 1, 0, 1⟩ : RectRange Int).xlen.toNat < 16 ∧
     (⟨0, 1, 0, 1⟩ : RectRange Int).xs.toNat < 16) :=
  collide_l_shift_safety buf_one ⟨0, 16, 0, 1⟩ leaf_one buf_one ⟨0, 16, 0, 1⟩ leaf_one
    (by decide) (by decide) (0, 0) (0, 0) ⟨0, 0, 1, 1⟩ ⟨0, 1, 0, 1⟩ ⟨0, 1, 0, 1⟩
    (by decide) (by decide) (by decide)

/-- C2: the spec's scale rule is the smallest power-of-two multiple of the
tile size (values 1, 2, 4, 8, 16); the code's `get_scale` returns the
linear tier index instead: at `max_len = 33` it yields 3, which is not a
power-of-two multiplier, where the spec-side rule yields 4. -/
theorem get_scale_is_linear_tier_not_pow2 :
    get_scale 33 = some 3 ∧ scale_spec 33 = some 4 ∧
    (3 : Nat) ∉ ([1, 2, 4, 8, 16] : List Nat) := by decide

set_option maxRecDepth 40000 in
/-- C3 (code bug): `MeshNode::collide` compensates child offsets by
`scale * TILE_SIZE` although construction placed the children at
`(scale / 2) * TILE_SIZE`; for the 32×32 sprites of `buf_c` and `buf_d`
at offsets (0,0) and (16,0), the two query orders disagree:
A.collide(B, oa, ob) misses while B.collide(A, ob, oa) reports
(16,0,1,1). -/
theorem collide_node_node_asymmetric :
    collideOfBufs buf_c buf_d (0, 0) (16, 0) = some none ∧
    collideOfBufs buf_d buf_c (16, 0) (0, 0) = some (some ⟨16, 0, 1, 1⟩) := by
  decide

set_option maxRecDepth 40000 in
/-- C1 counterexample: for the trees built from `buf_a` and `buf_b` at
offsets (0,0) and (8,0), `collide` reports the rectangle (32,0,1,1), but
no point of that rectangle is occupied in both placed buffers (the only
point, (32,0), lies outside the 32-wide `buf_a`): the mis-compensated
node×node descent produces a false positive, contradicting the claim. -/
theorem collide_reports_unoccupied_rect :
    collideOfBufs buf_a buf_b (0, 0) (8, 0) = some (some ⟨32, 0, 1, 1⟩) ∧
    anyOverlapIn ⟨32, 0, 1, 1⟩ buf_a buf_b (0, 0) (8, 0) = false := by
  decide

set_option maxRecDepth 40000 in
/-- C5 counterexample: `buf_e` (33×1, occupied at (32,0)) contains an
occupied pixel, yet `MeshTree::from_buf` returns absence: at the linear
tier 3 the quadrants cover only x < 32, so the pixel is never visited,
contradicting "no result exactly when zero occupied pixels". -/
theorem from_buf_none_despite_occupied :
    isOkNone (MeshTree.from_buf buf_e) = true ∧ all_trans buf_e = false := by
  decide

/-- Containment is reflexive. -/
theorem rectContains_refl (r : DotRect) : rectContains r r := by
  unfold rectContains
  omega

/-- Containment is transitive. -/
theorem rectContains_trans {a b c : DotRect} (h1 : rectContains a b)
    (h2 : rectContains b c) : rectContains a c := by
  unfold rectContains at h1 h2 ⊢
  omega

/-- The euclid union of two positive rectangles contains both and is
positive. -/
theorem union_contains (a b : DotRect) (ha : PosRect a) (hb : PosRect b) :
    rectContains (a.union b) a ∧ rectContains (a.union b) b ∧ PosRect (a.union b) := by
  obtain ⟨ha1, ha2⟩ := ha
  obtain ⟨hb1, hb2⟩ := hb
  unfold DotRect.union
  rw [if_neg (by omega), if_neg (by omega)]
  unfold rectContains PosRect
  refine ⟨⟨?_, ?_, ?_, ?_⟩, ⟨?_, ?_, ?_, ?_⟩, ?_, ?_⟩ <;> simp <;> omega

/-- `slide_rect` preserves positivity. -/
theorem slide_pos {r : DotRect} (h : PosRect r) (off : Int × Int) :
    PosRect (slide_rect r off) := h

/-- The construction offset of a quadrant agrees with `quadOffset` at the
node's stored scale. -/
theorem quadOffset_eq (scaleI : Int) (cscale : Nat) (hsc : scaleI / 2 = (cscale : Int))
    (d : TileDir) :
    quadOffset scaleI d = (((d.nx * cscale * 16 : Nat) : Int), ((d.ny * cscale * 16 : Nat) : Int)) := by
  unfold quadOffset
  cases d <;> simp [TileDir.dx, TileDir.dy, TileDir.nx, TileDir.ny, hsc]

/-- Invariant of the quadrant loop: a successful `build_children` run with a
positive accumulator yields a final box containing the accumulator, and the
collected children satisfy the containment invariant for the final box. -/
theorem build_children_ok (go : RectRange Nat → Except Unit (Option MeshTree))
    (hgo : ∀ r t, go r = .ok (some t) → TreeBoxesOK t ∧ PosRect t.bbox)
    (range_orig : RectRange Nat) (cscale : Nat) (scaleI : Int)
    (hsc : scaleI / 2 = (cscale : Int)) :
    ∀ (dirs : List TileDir) (acc : Option DotRect) (cs : MeshChildren)
      (bb : Option DotRect),
      build_children go range_orig cscale dirs acc = .ok (cs, bb) →
      (∀ b, acc = some b → PosRect b) →
      (∀ b, acc = some b → ∃ bf, bb = some bf ∧ rectContains bf b ∧ PosRect bf) ∧
      (∀ bf, bb = some bf → PosRect bf ∧ ChildrenBoxesOK cs bf scaleI) := by
  intro dirs
  induction dirs with
  | nil =>
    intro acc cs bb h haccp
    unfold build_children at h
    simp only [Except.ok.injEq, Prod.mk.injEq] at h
    obtain ⟨hcs, hbb⟩ := h
    subst hcs
    subst hbb
    constructor
    · intro b hb
      exact ⟨b, hb, rectContains_refl b, haccp b hb⟩
    · intro bf hbf
      exact ⟨haccp bf hbf, trivial⟩
  | cons dir rest ih =>
    intro acc cs bb h haccp
    unfold build_children at h
    dsimp only [] at h
    have hfc : RectRange.from_corners
        ((dir.nx * cscale * 16, dir.ny * cscale * 16) : Nat × Nat)
        ((dir.nx * cscale * 16 + cscale * 16, dir.ny * cscale * 16 + cscale * 16) : Nat × Nat)
        = some ⟨dir.nx * cscale * 16, dir.nx * cscale * 16 + cscale * 16,
            dir.ny * cscale * 16, dir.ny * cscale * 16 + cscale * 16⟩ := by
      unfold RectRange.from_corners RectRange.new
      rw [if_pos (by constructor <;> omega)]
    rw [hfc] at h
    dsimp only [] at h
    cases hint : range_orig.inter ⟨dir.nx * cscale * 16, dir.nx * cscale * 16 + cscale * 16,
        dir.ny * cscale * 16, dir.ny * cscale * 16 + cscale * 16⟩ with
    | none =>
      rw [hint] at h
      exact ih acc cs bb h haccp
    | some inter =>
      rw [hint] at h
      dsimp only [] at h
      cases hgr : go inter with
      | error e =>
        rw [hgr] at h
        exact absurd h (by simp)
      | ok o =>
        rw [hgr] at h
        cases o with
        | none => exact ih acc cs bb h haccp
        | some t =>
          obtain ⟨htok, htpos⟩ := hgo inter t hgr
          set bboxC := slide_rect t.bbox
            (((dir.nx * cscale * 16 : Nat) : Int), ((dir.ny * cscale * 16 : Nat) : Int))
            with hbboxC
          have hposC : PosRect bboxC := slide_pos htpos _
          have main : ∀ (A : DotRect), PosRect A → rectContains A bboxC →
              (∀ b, acc = some b → rectContains A b) →
              (match build_children go range_orig cscale rest (some A) with
               | .error e => (.error e : Except Unit (MeshChildren × Option DotRect))
               | .ok (cs', bbf) => .ok (.cons t dir cs', bbf)) = .ok (cs, bb) →
              (∀ b, acc = some b → ∃ bf, bb = some bf ∧ rectContains bf b ∧ PosRect bf) ∧
              (∀ bf, bb = some bf → PosRect bf ∧ ChildrenBoxesOK cs bf scaleI) := by
            intro A hAp hAc hAb hmatch
            cases hrest : build_children go range_orig cscale rest (some A) with
            | error e =>
              rw [hrest] at hmatch
              exact absurd hmatch (by simp)
            | ok p =>
              obtain ⟨cs', bbf⟩ := p
              rw [hrest] at hmatch
              simp only [Except.ok.injEq, Prod.mk.injEq] at hmatch
              obtain ⟨hcs, hbb⟩ := hmatch
              subst hcs
              subst hbb
              obtain ⟨ih1, ih2⟩ := ih (some A) cs' bbf hrest (by
                intro b2 hb2
                rw [Option.some_inj] at hb2
                subst hb2
                exact hAp)
              obtain ⟨bf, hbf, hbfc, hbfp⟩ := ih1 A rfl
              constructor
              · intro b hb
                exact ⟨bf, hbf, rectContains_trans hbfc (hAb b hb), hbfp⟩
              · intro bf2 hbf2
                rw [hbf] at hbf2
                rw [Option.some_inj] at hbf2
                subst hbf2
                refine ⟨hbfp, ?_, htok, (ih2 bf hbf).2⟩
                rw [quadOffset_eq scaleI cscale hsc dir]
                exact rectContains_trans hbfc hAc
          cases hav : acc with
          | none =>
            subst hav
            dsimp only [] at h
            exact main bboxC hposC (rectContains_refl _)
              (fun b hb => absurd hb (by simp)) h
          | some b0 =>
            subst hav
            dsimp only [] at h
            have hb0p : PosRect b0 := haccp b0 rfl
            obtain ⟨hu1, hu2, hu3⟩ := union_contains b0 bboxC hb0p hposC
            exact main (b0.union bboxC) hu3 hu2
              (fun b hb => by
                rw [Option.some_inj] at hb
                subst hb
                exact hu1) h

/-- Every tree produced by `from_buf_` satisfies the containment invariant
and has a positive bounding box. -/
theorem from_buf_tree_ok (buf : RgbaImage) :
    ∀ (fuel : Nat) (range : RectRange Nat) (t : MeshTree),
      MeshTree.from_buf_ buf fuel range = .ok (some t) →
      TreeBoxesOK t ∧ PosRect t.bbox := by
  intro fuel
  induction fuel with
  | zero =>
    intro range t h
    exact absurd h (by simp [MeshTree.from_buf_])
  | succ fuel ih =>
    intro range t h
    unfold MeshTree.from_buf_ at h
    cases hsc : get_scale (max range.xlen range.ylen) with
    | none =>
      rw [hsc] at h
      exact absurd h (by simp)
    | some scale =>
      rw [hsc] at h
      dsimp only [] at h
      by_cases h1 : scale = 1
      · rw [if_pos h1] at h
        simp only [Except.ok.injEq] at h
        cases hl : MeshLeaf.from_buf buf range with
        | none => rw [hl] at h; exact absurd h (by simp)
        | some l =>
          rw [hl] at h
          simp only [Option.map_some'] at h
          rw [Option.some_inj] at h
          subst h
          obtain ⟨-, hpos, -, hbits, -⟩ := leaf_from_buf_char hl
          exact ⟨hbits, hpos⟩
      · rw [if_neg h1] at h
        cases hb : build_children (MeshTree.from_buf_ buf fuel) range (scale / 2)
            TileDir.variants none with
        | error e =>
          rw [hb] at h
          exact absurd h (by simp)
        | ok p =>
          obtain ⟨cs, bbopt⟩ := p
          rw [hb] at h
          cases bbopt with
          | none => exact absurd h (by simp)
          | some bbox =>
            simp only [Except.ok.injEq, Option.some_inj] at h
            subst h
            have hint : ((scale : Int)) / 2 = ((scale / 2 : Nat) : Int) :=
              (Int.ofNat_tdiv scale 2).symm
            obtain ⟨-, h2⟩ := build_children_ok (MeshTree.from_buf_ buf fuel)
              (fun r t ht => ih r t ht) range (scale / 2) (scale : Int) hint
              TileDir.variants none cs (some bbox) hb
              (fun b hbb => absurd hbb (by simp))
            obtain ⟨hbp, hcok⟩ := h2 bbox rfl
            exact ⟨hcok, hbp⟩

/-- C4: every tree constructed by `MeshTree::from_buf` satisfies the
bounding-box containment invariant: each set occupancy bit of each leaf
lies within that leaf's box, and each node's box fully contains every
present child's box translated by its quadrant offset
(`dir * (scale / 2) * TILE_SIZE`), recursively. -/
theorem constructed_tree_boxes_ok (buf : RgbaImage) (t : MeshTree)
    (h : MeshTree.from_buf buf = .ok (some t)) : TreeBoxesOK t := by
  unfold MeshTree.from_buf at h
  cases hz : RectRange.zero_start buf.width buf.height with
  | none =>
    rw [hz] at h
    exact absurd h (by simp)
  | some range =>
    rw [hz] at h
    exact (from_buf_tree_ok buf 6 range t h).1

set_option maxRecDepth 40000 in
/-- Witness: the tree built from `buf_one` satisfies the containment
invariant. -/
theorem constructed_tree_boxes_ok_witness :
    ∃ t, MeshTree.from_buf buf_one = .ok (some t) ∧ TreeBoxesOK t := by
  have hs : isOkSome (MeshTree.from_buf buf_one) = true := by decide
  cases h : MeshTree.from_buf buf_one with
  | error e =>
    rw [h] at hs
    exact absurd hs (by simp [isOkSome])
  | ok o =>
    cases o with
    | none =>
      rw [h] at hs
      exact absurd hs (by simp [isOkSome])
    | some t => exact ⟨t, rfl, constructed_tree_boxes_ok buf_one t h⟩

/-- A range intersection is no larger than the second argument. -/
theorem inter_dims_le {a b c : RectRange Nat} (h : RectRange.inter a b = some c) :
    c.xlen ≤ b.xlen ∧ c.ylen ≤ b.ylen := by
  unfold RectRange.inter RectRange.new at h
  split at h
  case isTrue hc =>
    rw [Option.some_inj] at h
    subst h
    unfold RectRange.xlen RectRange.ylen
    constructor <;> simp <;> omega
  case isFalse => exact absurd h (by simp)

/-- The quadrant loop never panics when the recursive call does not panic
on quadrant-sized ranges. -/
theorem build_children_no_error (go : RectRange Nat → Except Unit (Option MeshTree))
    (range : RectRange Nat) (cscale : Nat)
    (hgo : ∀ r : RectRange Nat, r.xlen ≤ cscale * 16 → r.ylen ≤ cscale * 16 →
      go r ≠ .error ()) :
    ∀ (dirs : List TileDir) (acc : Option DotRect),
      build_children go range cscale dirs acc ≠ .error () := by
  intro dirs
  induction dirs with
  | nil =>
    intro acc h
    simp [build_children] at h
  | cons dir rest ih =>
    intro acc h
    unfold build_children at h
    dsimp only [] at h
    have hfc : RectRange.from_corners
        ((dir.nx * cscale * 16, dir.ny * cscale * 16) : Nat × Nat)
        ((dir.nx * cscale * 16 + cscale * 16, dir.ny * cscale * 16 + cscale * 16) : Nat × Nat)
        = some ⟨dir.nx * cscale * 16, dir.nx * cscale * 16 + cscale * 16,
            dir.ny * cscale * 16, dir.ny * cscale * 16 + cscale * 16⟩ := by
      unfold RectRange.from_corners RectRange.new
      rw [if_pos (by constructor <;> omega)]
    rw [hfc] at h
    dsimp only [] at h
    cases hint : range.inter ⟨dir.nx * cscale * 16, dir.nx * cscale * 16 + cscale * 16,
        dir.ny * cscale * 16, dir.ny * cscale * 16 + cscale * 16⟩ with
    | none =>
      rw [hint] at h
      exact ih acc h
    | some inter =>
      rw [hint] at h
      dsimp only [] at h
      have hdims := inter_dims_le hint
      have hxd : inter.xlen ≤ cscale * 16 := by
        have := hdims.1
        unfold RectRange.xlen at this ⊢
        simp at this
        omega
      have hyd : inter.ylen ≤ cscale * 16 := by
        have := hdims.2
        unfold RectRange.ylen at this ⊢
        simp at this
        omega
      cases hgr : go inter with
      | error e =>
        cases e
        exact hgo inter hxd hyd hgr
      | ok o =>
        rw [hgr] at h
        cases o with
        | none => exact ih acc h
        | some t =>
          dsimp only [] at h
          cases acc with
          | none =>
            dsimp only [] at h
            cases hrest : build_children go range cscale rest
                (some (slide_rect t.bbox
                  (((dir.nx * cscale * 16 : Nat) : Int), ((dir.ny * cscale * 16 : Nat) : Int)))) with
            | error e =>
              cases e
              exact ih _ hrest
            | ok p =>
              rw [hrest] at h
              obtain ⟨cs', bb'⟩ := p
              simp at h
          | some b0 =>
            dsimp only [] at h
            cases hrest : build_children go range cscale rest
                (some (b0.union (slide_rect t.bbox
                  (((dir.nx * cscale * 16 : Nat) : Int), ((dir.ny * cscale * 16 : Nat) : Int))))) with
            | error e =>
              cases e
              exact ih _ hrest
            | ok p =>
              rw [hrest] at h
              obtain ⟨cs', bb'⟩ := p
              simp at h

/-- `get_scale` at a supported size between two and sixteen tiles. -/
theorem get_scale_mid {m : Nat} (h1 : 32 < m) (h2 : m ≤ 256) :
    ∃ s, get_scale m = some s ∧ 3 ≤ s ∧ s ≤ 5 ∧ (s / 2) * 16 ≤ 32 := by
  unfold get_scale
  by_cases ha : m ≤ 64
  · exact ⟨3, by rw [if_neg (by omega), if_neg (by omega), if_pos ha], by omega, by omega,
      by norm_num⟩
  · by_cases hb : m ≤ 128
    · exact ⟨4, by rw [if_neg (by omega), if_neg (by omega), if_neg (by omega), if_pos hb],
        by omega, by omega, by norm_num⟩
    · exact ⟨5, by rw [if_neg (by omega), if_neg (by omega), if_neg (by omega),
        if_neg (by omega), if_pos (by omega)], by omega, by omega, by norm_num⟩

/-- `get_scale` above the ceiling. -/
theorem get_scale_none {m : Nat} (h : 256 < m) : get_scale m = none := by
  unfold get_scale
  rw [if_neg (by omega), if_neg (by omega), if_neg (by omega), if_neg (by omega),
    if_neg (by omega)]

/-- Construction does not panic on ranges at most one tile wide and high. -/
theorem from_buf_no_error_16 (buf : RgbaImage) (fuel : Nat) (hf : 1 ≤ fuel)
    (range : RectRange Nat) (hx : range.xlen ≤ 16) (hy : range.ylen ≤ 16) :
    MeshTree.from_buf_ buf fuel range ≠ .error () := by
  obtain ⟨f, rfl⟩ : ∃ f, fuel = f + 1 := ⟨fuel - 1, by omega⟩
  intro h
  unfold MeshTree.from_buf_ at h
  rw [show get_scale (max range.xlen range.ylen) = some 1 from by
    unfold get_scale; rw [if_pos (by omega)]] at h
  dsimp only [] at h
  rw [if_pos rfl] at h
  simp at h

/-- Construction does not panic on ranges at most two tiles wide and high. -/
theorem from_buf_no_error_32 (buf : RgbaImage) (fuel : Nat) (hf : 2 ≤ fuel)
    (range : RectRange Nat) (hx : range.xlen ≤ 32) (hy : range.ylen ≤ 32) :
    MeshTree.from_buf_ buf fuel range ≠ .error () := by
  by_cases h16 : range.xlen ≤ 16 ∧ range.ylen ≤ 16
  · exact from_buf_no_error_16 buf fuel (by omega) range h16.1 h16.2
  · obtain ⟨f, rfl⟩ : ∃ f, fuel = f + 1 := ⟨fuel - 1, by omega⟩
    intro h
    unfold MeshTree.from_buf_ at h
    rw [show get_scale (max range.xlen range.ylen) = some 2 from by
      unfold get_scale; rw [if_neg (by omega), if_pos (by omega)]] at h
    dsimp only [] at h
    rw [if_neg (by omega)] at h
    cases hb : build_children (MeshTree.from_buf_ buf f) range (2 / 2)
        TileDir.variants none with
    | error e =>
      cases e
      exact build_children_no_error (MeshTree.from_buf_ buf f) range (2 / 2)
        (fun r hrx hry => from_buf_no_error_16 buf f (by omega) r (by omega) (by omega))
        TileDir.variants none hb
    | ok p =>
      rw [hb] at h
      obtain ⟨cs, bbopt⟩ := p
      cases bbopt <;> simp at h

/-- Construction does not panic on any range within the supported 256×256
ceiling. -/
theorem from_buf_no_error_256 (buf : RgbaImage) (fuel : Nat) (hf : 3 ≤ fuel)
    (range : RectRange Nat) (hx : range.xlen ≤ 256) (hy : range.ylen ≤ 256) :
    MeshTree.from_buf_ buf fuel range ≠ .error () := by
  by_cases h32 : range.xlen ≤ 32 ∧ range.ylen ≤ 32
  · exact from_buf_no_error_32 buf fuel (by omega) range h32.1 h32.2
  · obtain ⟨f, rfl⟩ : ∃ f, fuel = f + 1 := ⟨fuel - 1, by omega⟩
    intro h
    unfold MeshTree.from_buf_ at h
    obtain ⟨s, hgs, hs3, hs5, hsc⟩ := get_scale_mid
      (m := max range.xlen range.ylen) (by omega) (by omega)
    rw [hgs] at h
    dsimp only [] at h
    rw [if_neg (by omega)] at h
    cases hb : build_children (MeshTree.from_buf_ buf f) range (s / 2)
        TileDir.variants none with
    | error e =>
      cases e
      exact build_children_no_error (MeshTree.from_buf_ buf f) range (s / 2)
        (fun r hrx hry => from_buf_no_error_32 buf f (by omega) r (by omega) (by omega))
        TileDir.variants none hb
    | ok p =>
      rw [hb] at h
      obtain ⟨cs, bbopt⟩ := p
      cases bbopt <;> simp at h

/-- Construction panics at once above the ceiling. -/
theorem from_buf_error_of_large (buf : RgbaImage) (fuel : Nat) (hf : 1 ≤ fuel)
    (range : RectRange Nat) (hbig : 256 < max range.xlen range.ylen) :
    MeshTree.from_buf_ buf fuel range = .error () := by
  obtain ⟨f, rfl⟩ : ∃ f, fuel = f + 1 := ⟨fuel - 1, by omega⟩
  unfold MeshTree.from_buf_
  rw [get_scale_none hbig]

/-- C8: for buffers with at least one pixel on each side, construction
panics (signals the unrecoverable size error) exactly when the larger
dimension exceeds the supported maximum span of 256 = 16·2⁴ dots (five
scale tiers); every smaller buffer returns normally with a tree or with
absence. -/
theorem from_buf_panic_iff (buf : RgbaImage) (hw : 1 ≤ buf.width)
    (hh : 1 ≤ buf.height) :
    MeshTree.from_buf buf = .error () ↔ 256 < max buf.width buf.height := by
  unfold MeshTree.from_buf
  have hz : RectRange.zero_start buf.width buf.height
      = some ⟨0, buf.width, 0, buf.height⟩ := by
    unfold RectRange.zero_start RectRange.new
    rw [if_pos (by constructor <;> omega)]
  rw [hz]
  have hxl : (⟨0, buf.width, 0, buf.height⟩ : RectRange Nat).xlen = buf.width := by
    unfold RectRange.xlen
    simp
  have hyl : (⟨0, buf.width, 0, buf.height⟩ : RectRange Nat).ylen = buf.height := by
    unfold RectRange.ylen
    simp
  constructor
  · intro h
    by_contra hc
    push_neg at hc
    exact from_buf_no_error_256 buf 6 (by omega) ⟨0, buf.width, 0, buf.height⟩
      (by omega) (by omega) h
  · intro h
    exact from_buf_error_of_large buf 6 (by omega) ⟨0, buf.width, 0, buf.height⟩
      (by rw [hxl, hyl]; omega)

/-- Witness: the panic criterion instantiated at the 16×1 buffer. -/
theorem from_buf_panic_iff_witness :
    (MeshTree.from_buf buf_one = .error () ↔
      256 < max buf_one.width buf_one.height) :=
  from_buf_panic_iff buf_one (by decide) (by decide)

/-- Sliding twice composes the offsets. -/
theorem slide_slide (r : DotRect) (a b : Int × Int) :
    slide_rect (slide_rect r a) b = slide_rect r (a.1 + b.1, a.2 + b.2) := by
  simp [slide_rect]
  constructor <;> ring

/-- `intersects` is invariant under a common slide. -/
theorem intersects_slide (a b : DotRect) (v : Int × Int) :
    (slide_rect a v).intersects (slide_rect b v) = a.intersects b := by
  apply Bool.eq_iff_iff.mpr
  simp only [DotRect.intersects, slide_rect, Bool.and_eq_true, decide_eq_true_eq]
  constructor <;> intro h <;> [skip; skip] <;>
    obtain ⟨⟨⟨h1, h2⟩, h3⟩, h4⟩ := h <;>
    refine ⟨⟨⟨?_, ?_⟩, ?_⟩, ?_⟩ <;> omega

/-- `intersection` commutes with a common slide. -/
theorem intersection_slide (a b : DotRect) (v : Int × Int) :
    (slide_rect a v).intersection (slide_rect b v)
      = (a.intersection b).map (fun r => slide_rect r v) := by
  unfold DotRect.intersection
  rw [intersects_slide]
  by_cases h : a.intersects b = true
  · rw [if_pos h, if_pos h]
    simp only [Option.map_some', Option.some_inj, slide_rect, DotRect.mk.injEq]
    refine ⟨?_, ?_, ?_, ?_⟩ <;> omega
  · rw [if_neg h, if_neg h]
    simp

/-- Pruning is invariant under a common shift of both offsets. -/
theorem bbox_intersects_shift (b1 b2 : DotRect) (p q r s u w : Int) :
    bbox_intersects b1 b2 (p + u, q + w) (r + u, s + w)
      = bbox_intersects b1 b2 (p, q) (r, s) := by
  unfold bbox_intersects
  rw [show slide_rect b1 (p + u, q + w) = slide_rect (slide_rect b1 (p, q)) (u, w) from by
      rw [slide_slide],
    show slide_rect b2 (r + u, s + w) = slide_rect (slide_rect b2 (r, s)) (u, w) from by
      rw [slide_slide],
    intersects_slide]

/-- `get_tile_range` cancels a common shift of rectangle and offset. -/
theorem get_tile_range_shift (r : DotRect) (p q u w : Int) :
    get_tile_range (slide_rect r (u, w)) (p + u, q + w) = get_tile_range r (p, q) := by
  unfold get_tile_range
  rw [show slide_rect (slide_rect r (u, w)) (-(p + u), -(q + w))
      = slide_rect r (-p, -q) from by
    rw [slide_slide]
    congr 1
    simp only [Prod.mk.injEq]
    constructor <;> ring]

/-- Leaf-leaf queries are translation-equivariant. -/
theorem collide_l_shift (l1 l2 : MeshLeaf) (p q r s u w : Int) :
    l1.collide_l l2 (p + u, q + w) (r + u, s + w)
      = (l1.collide_l l2 (p, q) (r, s)).map (fun t => slide_rect t (u, w)) := by
  unfold MeshLeaf.collide_l bbox_intersection
  rw [show slide_rect l1.bbox (p + u, q + w)
      = slide_rect (slide_rect l1.bbox (p, q)) (u, w) from by rw [slide_slide],
    show slide_rect l2.bbox (r + u, s + w)
      = slide_rect (slide_rect l2.bbox (r, s)) (u, w) from by rw [slide_slide],
    intersection_slide]
  cases hint : (slide_rect l1.bbox (p, q)).intersection (slide_rect l2.bbox (r, s)) with
  | none => simp
  | some inter =>
    simp only [Option.map_some', Option.bind_eq_bind, Option.some_bind]
    rw [get_tile_range_shift inter p q u w, get_tile_range_shift inter r s u w]
    cases hs : get_tile_range inter (p, q) with
    | none => simp
    | some rs =>
      cases ho : get_tile_range inter (r, s) with
      | none => simp
      | some ro =>
        simp only [Option.some_bind]
        cases hf : (List.zip (intRange rs.ys rs.ye) (intRange ro.ys ro.ye)).find?
            (fun pr => line_mask rs.xs rs.xe (l1.inner.getD pr.1.toNat 0) &&&
              line_mask ro.xs ro.xe (l2.inner.getD pr.2.toNat 0) != 0) with
        | none => simp [hf]
        | some pr => simp [hf]

/-- Leaf-node queries and their child loops are translation-equivariant:
joint statement, proved by induction on the size of the node argument. -/
theorem collide_n_shift_all (N : Nat) :
    (∀ (l : MeshLeaf) (other : MeshNode), sizeOf other ≤ N →
      ∀ p q r s u w : Int,
        MeshLeaf.collide_n l other (p + u, q + w) (r + u, s + w)
          = (MeshLeaf.collide_n l other (p, q) (r, s)).map
              (fun t => slide_rect t (u, w))) ∧
    (∀ (l : MeshLeaf) (scale : Int) (cs : MeshChildren), sizeOf cs ≤ N →
      ∀ p q r s u w : Int,
        collide_n_children l scale cs (p + u, q + w) (r + u, s + w)
          = (collide_n_children l scale cs (p, q) (r, s)).map
              (fun t => slide_rect t (u, w))) := by
  induction N with
  | zero =>
    constructor
    · intro l other hs
      exfalso
      cases other
      simp [MeshNode.mk.sizeOf_spec] at hs
    · intro l scale cs hs
      exfalso
      cases cs <;> simp [MeshChildren.nil.sizeOf_spec, MeshChildren.cons.sizeOf_spec] at hs
  | succ N ihN =>
    obtain ⟨ihn, ihc⟩ := ihN
    constructor
    · intro l other hs p q r s u w
      cases other with
      | mk cs bbox scale =>
        have hcs : sizeOf cs ≤ N := by
          simp [MeshNode.mk.sizeOf_spec] at hs
          omega
        unfold MeshLeaf.collide_n
        rw [bbox_intersects_shift]
        by_cases hpr : bbox_intersects l.bbox bbox (p, q) (r, s) = true
        · rw [hpr]
          simp only [Bool.not_true, Bool.false_eq_true, if_false]
          exact ihc l scale cs hcs p q r s u w
        · rw [Bool.not_eq_true] at hpr
          rw [hpr]
          simp
    · intro l scale cs hs p q r s u w
      cases cs with
      | nil => simp [collide_n_children]
      | cons child dir rest =>
        have hrest : sizeOf rest ≤ N := by
          simp [MeshChildren.cons.sizeOf_spec] at hs
          omega
        cases child with
        | Leaf leaf =>
          simp only [collide_n_children]
          rw [show (r + u + dir.dx * scale * 8 : Int)
                = (r + dir.dx * scale * 8) + u from by ring,
            show (s + w + dir.dy * scale * 8 : Int)
                = (s + dir.dy * scale * 8) + w from by ring]
          rw [bbox_intersects_shift]
          by_cases hpr : bbox_intersects l.bbox leaf.bbox (p, q)
              (r + dir.dx * scale * 8, s + dir.dy * scale * 8) = true
          · rw [hpr]
            simp only [Bool.not_true, Bool.false_eq_true, if_false]
            rw [collide_l_shift]
            cases hc : l.collide_l leaf (p, q)
                (r + dir.dx * scale * 8, s + dir.dy * scale * 8) with
            | none =>
              simp only [Option.map_none']
              exact ihc l scale rest hrest p q r s u w
            | some t => simp
          · rw [Bool.not_eq_true] at hpr
            rw [hpr]
            simp only [Bool.not_false, if_true]
            exact ihc l scale rest hrest p q r s u w
        | Node node =>
          have hnode : sizeOf node ≤ N := by
            simp [MeshChildren.cons.sizeOf_spec, MeshTree.Node.sizeOf_spec] at hs
            omega
          simp only [collide_n_children]
          rw [show (r + u + dir.dx * scale * 8 : Int)
                = (r + dir.dx * scale * 8) + u from by ring,
            show (s + w + dir.dy * scale * 8 : Int)
                = (s + dir.dy * scale * 8) + w from by ring]
          rw [bbox_intersects_shift]
          by_cases hpr : bbox_intersects l.bbox node.bbox (p, q)
              (r + dir.dx * scale * 8, s + dir.dy * scale * 8) = true
          · rw [hpr]
            simp only [Bool.not_true, Bool.false_eq_true, if_false]
            rw [ihn l node hnode]
            cases hc : l.collide_n node (p, q)
                (r + dir.dx * scale * 8, s + dir.dy * scale * 8) with
            | none =>
              simp only [Option.map_none']
              exact ihc l scale rest hrest p q r s u w
            | some t => simp
          · rw [Bool.not_eq_true] at hpr
            rw [hpr]
            simp only [Bool.not_false, if_true]
            exact ihc l scale rest hrest p q r s u w

/-- Leaf-node queries are translation-equivariant. -/
theorem collide_n_shift (l : MeshLeaf) (other : MeshNode) (p q r s u w : Int) :
    MeshLeaf.collide_n l other (p + u, q + w) (r + u, s + w)
      = (MeshLeaf.collide_n l other (p, q) (r, s)).map (fun t => slide_rect t (u, w)) :=
  (collide_n_shift_all (sizeOf other)).1 l other (Nat.le_refl _) p q r s u w

/-- Node-node queries and their child loops are translation-equivariant:
joint statement, proved by induction on the size of the first node. -/
theorem node_collide_shift_all (N : Nat) :
    (∀ (n other : MeshNode), sizeOf n ≤ N →
      ∀ p q r s u w : Int,
        MeshNode.collide n other (p + u, q + w) (r + u, s + w)
          = (MeshNode.collide n other (p, q) (r, s)).map
              (fun t => slide_rect t (u, w))) ∧
    (∀ (scale : Int) (cs : MeshChildren) (other : MeshNode), sizeOf cs ≤ N →
      ∀ p q r s u w : Int,
        node_collide_children scale cs other (p + u, q + w) (r + u, s + w)
          = (node_collide_children scale cs other (p, q) (r, s)).map
              (fun t => slide_rect t (u, w))) := by
  induction N with
  | zero =>
    constructor
    · intro n other hs
      exfalso
      cases n
      simp [MeshNode.mk.sizeOf_spec] at hs
    · intro scale cs other hs
      exfalso
      cases cs <;> simp [MeshChildren.nil.sizeOf_spec, MeshChildren.cons.sizeOf_spec] at hs
  | succ N ihN =>
    obtain ⟨ihn, ihc⟩ := ihN
    constructor
    · intro n other hs p q r s u w
      cases n with
      | mk cs bbox scale =>
        have hcs : sizeOf cs ≤ N := by
          simp [MeshNode.mk.sizeOf_spec] at hs
          omega
        unfold MeshNode.collide
        rw [bbox_intersects_shift]
        by_cases hpr : bbox_intersects bbox other.bbox (p, q) (r, s) = true
        · rw [hpr]
          simp only [Bool.not_true, Bool.false_eq_true, if_false]
          exact ihc scale cs other hcs p q r s u w
        · rw [Bool.not_eq_true] at hpr
          rw [hpr]
          simp
    · intro scale cs other hs p q r s u w
      cases cs with
      | nil => simp [node_collide_children]
      | cons child dir rest =>
        have hrest : sizeOf rest ≤ N := by
          simp [MeshChildren.cons.sizeOf_spec] at hs
          omega
        cases child with
        | Leaf leaf =>
          simp only [node_collide_children]
          rw [show (p + u + dir.dx * scale * 16 : Int)
                = (p + dir.dx * scale * 16) + u from by ring,
            show (q + w + dir.dy * scale * 16 : Int)
                = (q + dir.dy * scale * 16) + w from by ring]
          rw [bbox_intersects_shift]
          by_cases hpr : bbox_intersects leaf.bbox other.bbox
              (p + dir.dx * scale * 16, q + dir.dy * scale * 16) (r, s) = true
          · rw [hpr]
            simp only [Bool.not_true, Bool.false_eq_true, if_false]
            rw [collide_n_shift]
            cases hc : leaf.collide_n other
                (p + dir.dx * scale * 16, q + dir.dy * scale * 16) (r, s) with
            | none =>
              simp only [Option.map_none']
              exact ihc scale rest other hrest p q r s u w
            | some t => simp
          · rw [Bool.not_eq_true] at hpr
            rw [hpr]
            simp only [Bool.not_false, if_true]
            exact ihc scale rest other hrest p q r s u w
        | Node node =>
          have hnode : sizeOf node ≤ N := by
            simp [MeshChildren.cons.sizeOf_spec, MeshTree.Node.sizeOf_spec] at hs
            omega
          simp only [node_collide_children]
          rw [show (p + u + dir.dx * scale * 16 : Int)
                = (p + dir.dx * scale * 16) + u from by ring,
            show (q + w + dir.dy * scale * 16 : Int)
                = (q + dir.dy * scale * 16) + w from by ring]
          rw [bbox_intersects_shift]
          by_cases hpr : bbox_intersects node.bbox other.bbox
              (p + dir.dx * scale * 16, q + dir.dy * scale * 16) (r, s) = true
          · rw [hpr]
            simp only [Bool.not_true, Bool.false_eq_true, if_false]
            rw [ihn node other hnode]
            cases hc : node.collide other
                (p + dir.dx * scale * 16, q + dir.dy * scale * 16) (r, s) with
            | none =>
              simp only [Option.map_none']
              exact ihc scale rest other hrest p q r s u w
            | some t => simp
          · rw [Bool.not_eq_true] at hpr
            rw [hpr]
            simp only [Bool.not_false, if_true]
            exact ihc scale rest other hrest p q r s u w

/-- Node-node queries are translation-equivariant. -/
theorem node_collide_shift (n other : MeshNode) (p q r s u w : Int) :
    MeshNode.collide n other (p + u, q + w) (r + u, s + w)
      = (MeshNode.collide n other (p, q) (r, s)).map (fun t => slide_rect t (u, w)) :=
  (node_collide_shift_all (sizeOf n)).1 n other (Nat.le_refl _) p q r s u w

/-- A positive rectangle inside the tile intersects the tile in itself. -/
theorem tile_intersection_of_sub {A : DotRect} (hp : PosRect A)
    (h : rectContains tile_size_rect A) : tile_size_rect.intersection A = some A := by
  obtain ⟨hw, hh⟩ := hp
  obtain ⟨h1, h2, h3, h4⟩ := h
  unfold DotRect.intersection
  rw [if_pos]
  · rw [Option.some_inj]
    simp only [tile_size_rect] at h1 h2 h3 h4 ⊢
    cases A
    simp only [DotRect.mk.injEq]
    simp only [] at *
    refine ⟨?_, ?_, ?_, ?_⟩ <;> omega
  · unfold DotRect.intersects
    simp only [tile_size_rect] at h1 h2 h3 h4 ⊢
    simp only [Bool.and_eq_true, decide_eq_true_eq]
    refine ⟨⟨⟨?_, ?_⟩, ?_⟩, ?_⟩ <;> omega

/-- `from_rect` of a positive rectangle always succeeds. -/
theorem from_rect_pos {r : DotRect} (hp : PosRect r) :
    RectRange.from_rect r = some ⟨r.x, r.x + r.w, r.y, r.y + r.h⟩ := by
  obtain ⟨hw, hh⟩ := hp
  unfold RectRange.from_rect RectRange.new
  rw [if_pos ⟨by omega, by omega⟩]

/-- When the query rectangle, slid back by the offset, lies inside the
tile, `get_tile_range` is exactly that slid rectangle as a range. -/
theorem get_tile_range_of_sub {rect : DotRect} {o : DotPoint} {bbox : DotRect}
    (hp : PosRect rect)
    (hsub : rectContains (slide_rect bbox o) rect)
    (htile : rectContains tile_size_rect bbox) :
    get_tile_range rect o = some ⟨rect.x + -o.1, rect.x + -o.1 + rect.w,
      rect.y + -o.2, rect.y + -o.2 + rect.h⟩ := by
  have hcont : rectContains tile_size_rect (slide_rect rect (-o.1, -o.2)) := by
    unfold rectContains slide_rect at hsub ⊢
    unfold rectContains at htile
    unfold tile_size_rect at htile ⊢
    simp only [] at hsub htile ⊢
    omega
  have hint : tile_size_rect.intersection (slide_rect rect (-o.1, -o.2))
      = some (slide_rect rect (-o.1, -o.2)) :=
    tile_intersection_of_sub (slide_pos hp _) hcont
  unfold get_tile_range
  simp only [Option.bind_eq_bind]
  rw [hint]
  simp only [Option.some_bind]
  rw [from_rect_pos (slide_pos hp _)]
  rfl

/-- Replacing a `find?` scan whose result is discarded by an `any` test. -/
theorem find_map_if {α β γ : Type} (l : List α) (q : α → Bool) (g : α → β) (c : γ) :
    ((l.find? q).map g).map (fun _ => c) = if l.any q then some c else none := by
  cases hf : l.find? q with
  | none =>
    have hany : l.any q = false := by
      rw [← Bool.not_eq_true, List.any_eq_true]
      rintro ⟨x, hx, hp⟩
      exact absurd hp (by simpa using List.find?_eq_none.mp hf x hx)
    rw [hany]
    simp
  | some a =>
    have hany : l.any q = true :=
      List.any_eq_true.mpr ⟨a, List.mem_of_find?_eq_some hf, List.find?_some hf⟩
    rw [hany]
    simp

/-- C7: for constructed leaves, `collide_l` computes exactly the query the
spec describes: intersect the two translated bounding boxes, report
nothing when that is empty, and otherwise report the intersection
rectangle exactly when some row of the intersecting row range has a shared
set bit in the shifted-and-masked row masks (the scan stops at the first
such row, which the returned value cannot distinguish). -/
theorem collide_l_matches_spec (b1 : RgbaImage) (r1 : RectRange Nat) (l1 : MeshLeaf)
    (b2 : RgbaImage) (r2 : RectRange Nat) (l2 : MeshLeaf)
    (h1 : MeshLeaf.from_buf b1 r1 = some l1) (h2 : MeshLeaf.from_buf b2 r2 = some l2)
    (o1 o2 : DotPoint) :
    l1.collide_l l2 o1 o2 = collide_l_spec l1 l2 o1 o2 := by
  obtain ⟨-, hp1, hb1, -, -⟩ := leaf_from_buf_char h1
  obtain ⟨-, hp2, hb2, -, -⟩ := leaf_from_buf_char h2
  unfold MeshLeaf.collide_l collide_l_spec
  cases hint : bbox_intersection l1.bbox l2.bbox o1 o2 with
  | none => simp
  | some inter =>
    have hint' : (slide_rect l1.bbox o1).intersection (slide_rect l2.bbox o2)
        = some inter := hint
    have hpi : PosRect inter := intersection_pos (slide_pos hp1 o1) (slide_pos hp2 o2) hint'
    have hsub := intersection_subset hint'
    have htile1 : rectContains tile_size_rect l1.bbox := by
      unfold rectContains tile_size_rect
      obtain ⟨u1, u2, u3, u4⟩ := hb1
      simp only []
      omega
    have htile2 : rectContains tile_size_rect l2.bbox := by
      unfold rectContains tile_size_rect
      obtain ⟨u1, u2, u3, u4⟩ := hb2
      simp only []
      omega
    have hr1 : get_tile_range inter o1
        = some ⟨inter.x - o1.1, inter.x + inter.w - o1.1,
            inter.y - o1.2, inter.y - o1.2 + inter.h⟩ := by
      rw [get_tile_range_of_sub hpi hsub.1 htile1]
      rw [Option.some_inj, RectRange.mk.injEq]
      refine ⟨by ring, by ring, by ring, by ring⟩
    have hr2 : get_tile_range inter o2
        = some ⟨inter.x - o2.1, inter.x + inter.w - o2.1,
            inter.y - o2.2, inter.y - o2.2 + inter.h⟩ := by
      rw [get_tile_range_of_sub hpi hsub.2 htile2]
      rw [Option.some_inj, RectRange.mk.injEq]
      refine ⟨by ring, by ring, by ring, by ring⟩
    simp only [Option.bind_eq_bind, Option.some_bind]
    rw [hr1, hr2]
    simp only [Option.some_bind]
    unfold intRange
    rw [show (inter.y - o1.2 + inter.h) - (inter.y - o1.2) = inter.h from by ring,
      show (inter.y - o2.2 + inter.h) - (inter.y - o2.2) = inter.h from by ring]
    rw [List.zip_map', List.find?_map, find_map_if]
    rfl

/-- Witness: the refinement instantiated at the leaf of `buf_one`. -/
theorem collide_l_matches_spec_witness :
    leaf_one.collide_l leaf_one (0, 0) (0, 0)
      = collide_l_spec leaf_one leaf_one (0, 0) (0, 0) :=
  collide_l_matches_spec buf_one ⟨0, 16, 0, 1⟩ leaf_one buf_one ⟨0, 16, 0, 1⟩ leaf_one
    (by decide) (by decide) (0, 0) (0, 0)

/-- C9: translation invariance of the collision query. Shifting both world
offsets by the same vector `v` does not change whether a collision is
reported, and the reported rectangle shifts by exactly `v`. (Coordinates
are modelled over `Int`, so this covers every instance in which the `i16`
coordinates of the Rust code do not overflow.) -/
theorem collide_translation_invariant (t1 t2 : MeshTree) (o1 o2 : DotPoint)
    (v : Int × Int) :
    t1.collide t2 (o1.1 + v.1, o1.2 + v.2) (o2.1 + v.1, o2.2 + v.2)
      = (t1.collide t2 o1 o2).map (fun r => slide_rect r v) := by
  match t1, t2 with
  | .Leaf l1, .Leaf l2 => exact collide_l_shift l1 l2 o1.1 o1.2 o2.1 o2.2 v.1 v.2
  | .Leaf l1, .Node n2 => exact collide_n_shift l1 n2 o1.1 o1.2 o2.1 o2.2 v.1 v.2
  | .Node n1, .Leaf l2 => exact collide_n_shift l2 n1 o2.1 o2.2 o1.1 o1.2 v.1 v.2
  | .Node n1, .Node n2 => exact node_collide_shift n1 n2 o1.1 o1.2 o2.1 o2.2 v.1 v.2

set_option maxRecDepth 40000 in
/-- C6 counterexample: the single pixel of `buf_high_nibble` has collision
bits 0 (only the visible-alpha nibble of the packed byte is set), yet mesh
construction treats it as occupied and builds a tree, unlike the all-zero
byte of `buf_clear`: occupancy follows the whole alpha byte, so it is not
determined by the collision bits and not independent of visible alpha. -/
theorem occupancy_not_by_collision_bits :
    collision_bits 128 = 0 ∧
    (treeOfBuf buf_high_nibble).isSome = true ∧
    (treeOfBuf buf_clear).isSome = false := by
  decide

/-- Zipping a list against itself extended pairs each element with itself. -/
theorem zip_append_self {α : Type} : ∀ (l t : List α),
    (l ++ t).zip l = l.map (fun a => (a, a))
  | [], _ => by simp
  | x :: xs, t => by
    simp [zip_append_self xs t]

/-- The tile iteration is the aligned region's iteration followed by the
remaining rows, when the region spans the full 16-column width. -/
theorem tile_cells_split (h : Nat) (hh : h ≤ 16) :
    tile_rect.cells = (RectRange.cells ⟨0, 16, 0, h⟩) ++
      ((List.range' h (16 - h)).map
        (fun y => (List.range' 0 16).map (fun x => (x, y)))).flatten := by
  have e1 : 0 + 1 * h = h := by omega
  have e2 : (16 - h) + h = 16 := by omega
  have hsplit := List.range'_append 0 h (16 - h) 1
  rw [e1, e2] at hsplit
  unfold RectRange.cells tile_rect
  simp only []
  rw [show (16 : Nat) - 0 = 16 from rfl, show h - 0 = h from rfl]
  rw [← List.flatten_append, ← List.map_append, hsplit]

/-- For a full-width region of at most 16 rows, the zipped tile/buffer
iteration pairs every region cell with itself. -/
theorem tile_zip_aligned (h : Nat) (hh : h ≤ 16) :
    tile_rect.cells.zip (RectRange.cells ⟨0, 16, 0, h⟩)
      = (RectRange.cells ⟨0, 16, 0, h⟩).map (fun c => (c, c)) := by
  rw [tile_cells_split h hh, zip_append_self]

/-- Aligned bit characterization: for a leaf built over the full-width
region `[0,16) x [0,h)`, bit `15 - x` of row `y` is set exactly when the
buffer pixel at `(x, y)` exists in the region and is non-transparent. -/
theorem leaf_bit_aligned {buf : RgbaImage} {h : Nat} {l : MeshLeaf} (hh : h ≤ 16)
    (hl : MeshLeaf.from_buf buf ⟨0, 16, 0, h⟩ = some l) :
    ∀ x y : Nat, x < 16 → y < 16 →
      (Nat.testBit (l.inner.getD y 0) (15 - x) = true ↔
        (y < h ∧ is_trans (buf.pix x y) = false)) := by
  obtain ⟨-, -, -, -, hbit⟩ := leaf_from_buf_char hl
  intro x y hx hy
  rw [hbit x y hx hy, tile_zip_aligned h hh]
  constructor
  · rintro ⟨b, hb, hocc⟩
    simp only [List.mem_map] at hb
    obtain ⟨c, hc, hcc⟩ := hb
    have h1 : c = (x, y) := congrArg Prod.fst hcc
    have h2 : c = b := congrArg Prod.snd hcc
    subst h1
    rw [mem_cells] at hc
    rw [← h2] at hocc
    exact ⟨hc.2.2.2, hocc⟩
  · rintro ⟨hyh, hocc⟩
    refine ⟨(x, y), ?_, hocc⟩
    simp only [List.mem_map]
    exact ⟨(x, y), mem_cells.mpr ⟨Nat.zero_le _, hx, Nat.zero_le _, hyh⟩, rfl⟩

/-- If some scanned pair of the zipped iteration is occupied, leaf
construction succeeds. -/
theorem leaf_from_buf_isSome {buf : RgbaImage} {range : RectRange Nat}
    {t b : Nat × Nat}
    (hp : (t, b) ∈ tile_rect.cells.zip range.cells)
    (hocc : is_trans (buf.pix b.1 b.2) = false) :
    (MeshLeaf.from_buf buf range).isSome = true := by
  have h16 : ∀ p ∈ tile_rect.cells.zip range.cells, p.1.1 < 16 ∧ p.1.2 < 16 := by
    intro p hpm
    have hm := (List.of_mem_zip hpm).1
    rw [mem_cells] at hm
    exact ⟨hm.2.1, hm.2.2.2⟩
  obtain ⟨hlen16, hbit, hmm, hinit⟩ := leaf_fold_spec buf (tile_rect.cells.zip range.cells) h16
  obtain ⟨u1, u2, u3, u4, u5, u6⟩ := hmm t b hp hocc
  unfold MeshLeaf.from_buf
  simp only [Option.bind_eq_bind]
  set acc := (tile_rect.cells.zip range.cells).foldl (leafStep buf)
    ⟨TILE_SIZE, TILE_SIZE, 0, 0, List.replicate 16 0⟩ with hacc
  rw [show RectRange.from_corners (acc.min_x, acc.min_y) (acc.max_x + 1, acc.max_y + 1)
      = some ⟨acc.min_x, acc.max_x + 1, acc.min_y, acc.max_y + 1⟩ from by
    unfold RectRange.from_corners RectRange.new
    rw [if_pos ⟨by omega, by omega⟩]]
  simp only [Option.some_bind]
  rw [show RectRange.to_i16 ⟨acc.min_x, acc.max_x + 1, acc.min_y, acc.max_y + 1⟩
      = some ⟨(acc.min_x : Int), ((acc.max_x + 1 : Nat) : Int),
          (acc.min_y : Int), ((acc.max_y + 1 : Nat) : Int)⟩ from by
    unfold RectRange.to_i16
    rw [if_pos (by refine ⟨?_, ?_, ?_, ?_⟩ <;> simp <;> omega)]]
  simp only [Option.some_bind]
  rfl

set_option maxRecDepth 40000 in
/-- A non-transparent cell of the region is reached by the zipped
iteration whenever the region has at most 256 cells. -/
theorem leaf_from_buf_none_iff {buf : RgbaImage} {range : RectRange Nat}
    (hlen : range.cells.length ≤ 256) :
    (MeshLeaf.from_buf buf range = none ↔
      ∀ c ∈ range.cells, is_trans (buf.pix c.1 c.2) = true) := by
  have hzlen : tile_rect.cells.length = 256 := by decide
  have hsnd : (tile_rect.cells.zip range.cells).map Prod.snd = range.cells :=
    List.map_snd_zip _ _ (by omega)
  constructor
  · intro hnone c hc
    by_contra hocc
    have hocc' : is_trans (buf.pix c.1 c.2) = false := by
      cases hv : is_trans (buf.pix c.1 c.2)
      · rfl
      · exact absurd hv hocc
    have hcm : c ∈ (tile_rect.cells.zip range.cells).map Prod.snd := by
      rw [hsnd]; exact hc
    simp only [List.mem_map] at hcm
    obtain ⟨⟨t, b⟩, hpm, hb⟩ := hcm
    have hb' : b = c := hb
    subst hb'
    have := leaf_from_buf_isSome hpm hocc'
    rw [hnone] at this
    cases this
  · intro hall
    have h16 : ∀ p ∈ tile_rect.cells.zip range.cells, p.1.1 < 16 ∧ p.1.2 < 16 := by
      intro p hpm
      have hm := (List.of_mem_zip hpm).1
      rw [mem_cells] at hm
      exact ⟨hm.2.1, hm.2.2.2⟩
    obtain ⟨hlen16, hbit, hmm, hinit⟩ :=
      leaf_fold_spec buf (tile_rect.cells.zip range.cells) h16
    have hallp : ∀ t b, (t, b) ∈ tile_rect.cells.zip range.cells →
        is_trans (buf.pix b.1 b.2) = true := by
      intro t b htb
      exact hall b (by rw [← hsnd]; exact List.mem_map.mpr ⟨(t, b), htb, rfl⟩)
    have hini := hinit hallp
    unfold MeshLeaf.from_buf
    simp only [Option.bind_eq_bind]
    rw [hini]
    simp [RectRange.from_corners, RectRange.new, TILE_SIZE]

/-- Membership in `intRange` is interval membership. -/
theorem mem_intRange {s e x : Int} : x ∈ intRange s e ↔ s ≤ x ∧ x < e := by
  unfold intRange
  simp only [List.mem_map, List.mem_range, Int.ofNat_eq_coe]
  constructor
  · rintro ⟨i, hi, rfl⟩
    omega
  · rintro ⟨h1, h2⟩
    exact ⟨(x - s).toNat, by omega, by omega⟩

/-- A set bit of a `line_mask` lies in the masked window and comes from
the corresponding bit of the unshifted row. -/
theorem line_mask_testBit {xs xe : Int} {b : Nat} {i : Nat}
    (h : Nat.testBit (line_mask xs xe b) i = true) :
    i < 16 ∧ 16 - (xe - xs).toNat ≤ i ∧ xs.toNat ≤ i ∧
      Nat.testBit b (i - xs.toNat) = true := by
  unfold line_mask at h
  rw [show (65536 : Nat) = 2 ^ 16 from rfl, show (65535 : Nat) = 2 ^ 16 - 1 from rfl] at h
  simp only [Nat.testBit_and, Nat.testBit_mod_two_pow, Nat.testBit_shiftLeft,
    Nat.testBit_two_pow_sub_one, Bool.and_eq_true, decide_eq_true_eq, ge_iff_le] at h
  obtain ⟨⟨ha, hb, hc⟩, hd, he, hf⟩ := h
  exact ⟨ha, he, hb, hc⟩

/-- For a 16-wide buffer of at most 16 rows, the whole tree is the single
aligned leaf. -/
theorem from_buf_tree_aligned {buf : RgbaImage} {t : MeshTree}
    (hw : buf.width = 16) (hh : buf.height ≤ 16)
    (h : MeshTree.from_buf buf = .ok (some t)) :
    ∃ l, MeshLeaf.from_buf buf ⟨0, 16, 0, buf.height⟩ = some l ∧ t = .Leaf l := by
  unfold MeshTree.from_buf at h
  cases hz : RectRange.zero_start buf.width buf.height with
  | none => rw [hz] at h; exact absurd h (by simp)
  | some range =>
    rw [hz] at h
    have hrange : range = ⟨0, 16, 0, buf.height⟩ := by
      unfold RectRange.zero_start RectRange.new at hz
      rw [if_pos ⟨Nat.zero_le _, Nat.zero_le _⟩, Option.some_inj] at hz
      rw [← hz, hw]
    subst hrange
    rw [show (6 : Nat) = 5 + 1 from rfl] at h
    unfold MeshTree.from_buf_ at h
    have hx : RectRange.xlen (⟨0, 16, 0, buf.height⟩ : RectRange Nat) = 16 := rfl
    have hy : RectRange.ylen (⟨0, 16, 0, buf.height⟩ : RectRange Nat) = buf.height := rfl
    rw [show get_scale (max (RectRange.xlen (⟨0, 16, 0, buf.height⟩ : RectRange Nat))
        (RectRange.ylen (⟨0, 16, 0, buf.height⟩ : RectRange Nat))) = some 1 from by
      rw [hx, hy]
      unfold get_scale
      rw [if_pos (by omega)]] at h
    dsimp only [] at h
    rw [if_pos rfl] at h
    cases hl : MeshLeaf.from_buf buf ⟨0, 16, 0, buf.height⟩ with
    | none => rw [hl] at h; exact absurd h (by simp)
    | some l =>
      rw [hl] at h
      simp only [Option.map_some', Except.ok.injEq, Option.some_inj] at h
      exact ⟨l, rfl, h.symm⟩

/-- C1 amended: soundness of the collision result on the aligned leaf
path. For buffers exactly one tile wide (width 16, height at most 16,
where the zipped construction scan is aligned and the tree is a single
leaf), every rectangle reported by `MeshTree::collide` contains a world
pixel that is occupied in both placed buffers. -/
theorem collide_sound_aligned (b1 b2 : RgbaImage) (t1 t2 : MeshTree)
    (o1 o2 : DotPoint) (r : DotRect)
    (hw1 : b1.width = 16) (hh1 : b1.height ≤ 16)
    (hw2 : b2.width = 16) (hh2 : b2.height ≤ 16)
    (ht1 : MeshTree.from_buf b1 = .ok (some t1))
    (ht2 : MeshTree.from_buf b2 = .ok (some t2))
    (hc : t1.collide t2 o1 o2 = some r) :
    anyOverlapIn r b1 b2 o1 o2 = true := by
  obtain ⟨l1, hl1, rfl⟩ := from_buf_tree_aligned hw1 hh1 ht1
  obtain ⟨l2, hl2, rfl⟩ := from_buf_tree_aligned hw2 hh2 ht2
  have hc' : l1.collide_l l2 o1 o2 = some r := hc
  rw [collide_l_matches_spec b1 _ l1 b2 _ l2 hl1 hl2 o1 o2] at hc'
  unfold collide_l_spec at hc'
  cases hint : bbox_intersection l1.bbox l2.bbox o1 o2 with
  | none => rw [hint] at hc'; cases hc'
  | some inter =>
    rw [hint] at hc'
    obtain ⟨-, hp1, hb1, -, -⟩ := leaf_from_buf_char hl1
    obtain ⟨-, hp2, hb2, -, -⟩ := leaf_from_buf_char hl2
    have hint' : (slide_rect l1.bbox o1).intersection (slide_rect l2.bbox o2)
        = some inter := hint
    have hpi : 0 < inter.w ∧ 0 < inter.h :=
      intersection_pos (slide_pos hp1 o1) (slide_pos hp2 o2) hint'
    have hsub := intersection_subset hint'
    have hcc1 := hsub.1
    have hcc2 := hsub.2
    unfold rectContains slide_rect at hcc1 hcc2
    simp only [] at hcc1 hcc2
    obtain ⟨hs1a, hs1b, hs1c, hs1d⟩ := hcc1
    obtain ⟨hs2a, hs2b, hs2c, hs2d⟩ := hcc2
    have hb1' : 0 ≤ l1.bbox.x ∧ l1.bbox.x + l1.bbox.w ≤ 16 ∧
        0 ≤ l1.bbox.y ∧ l1.bbox.y + l1.bbox.h ≤ 16 := hb1
    have hb2' : 0 ≤ l2.bbox.x ∧ l2.bbox.x + l2.bbox.w ≤ 16 ∧
        0 ≤ l2.bbox.y ∧ l2.bbox.y + l2.bbox.h ≤ 16 := hb2
    obtain ⟨hb1a, hb1b, hb1c, hb1d⟩ := hb1'
    obtain ⟨hb2a, hb2b, hb2c, hb2d⟩ := hb2'
    dsimp only [] at hc'
    cases hcond : (List.range inter.h.toNat).any (fun k =>
        line_mask (inter.x - o1.1) (inter.x + inter.w - o1.1)
            (l1.inner.getD (inter.y - o1.2 + (k : Int)).toNat 0) &&&
        line_mask (inter.x - o2.1) (inter.x + inter.w - o2.1)
            (l2.inner.getD (inter.y - o2.2 + (k : Int)).toNat 0) != 0) with
    | false =>
      rw [hcond] at hc'
      simp at hc'
    | true =>
      rw [hcond] at hc'
      rw [if_pos rfl] at hc'
      rw [Option.some_inj] at hc'
      subst hc'
      rw [List.any_eq_true] at hcond
      obtain ⟨k, hk, hkp⟩ := hcond
      rw [List.mem_range] at hk
      simp only [bne_iff_ne, ne_eq] at hkp
      obtain ⟨i, hi⟩ := Nat.ne_zero_implies_bit_true hkp
      rw [Nat.testBit_and, Bool.and_eq_true] at hi
      obtain ⟨hi1, hi2⟩ := hi
      obtain ⟨hA1, hA2, hA3, hA4⟩ := line_mask_testBit hi1
      obtain ⟨hB1, hB2, hB3, hB4⟩ := line_mask_testBit hi2
      have hocc1 := (leaf_bit_aligned hh1 hl1
          (inter.x + 15 - (i : Int) - o1.1).toNat
          (inter.y - o1.2 + (k : Int)).toNat (by omega) (by omega)).mp
        (by rw [show 15 - (inter.x + 15 - (i : Int) - o1.1).toNat
              = i - (inter.x - o1.1).toNat from by omega]
            exact hA4)
      have hocc2 := (leaf_bit_aligned hh2 hl2
          (inter.x + 15 - (i : Int) - o2.1).toNat
          (inter.y - o2.2 + (k : Int)).toNat (by omega) (by omega)).mp
        (by rw [show 15 - (inter.x + 15 - (i : Int) - o2.1).toNat
              = i - (inter.x - o2.1).toNat from by omega]
            exact hB4)
      unfold anyOverlapIn
      rw [List.any_eq_true]
      refine ⟨inter.x + 15 - (i : Int), mem_intRange.mpr ⟨by omega, by omega⟩, ?_⟩
      rw [List.any_eq_true]
      refine ⟨inter.y + (k : Int), mem_intRange.mpr ⟨by omega, by omega⟩, ?_⟩
      rw [Bool.and_eq_true]
      constructor
      · unfold occupiedWorldB
        simp only [Bool.and_eq_true, decide_eq_true_eq, Bool.not_eq_true']
        refine ⟨⟨⟨⟨by omega, by omega⟩, by omega⟩, by omega⟩, ?_⟩
        rw [show (inter.x + 15 - (i : Int) - o1.1).toNat
              = (inter.x + 15 - (i : Int) - o1.1).toNat from rfl,
          show (inter.y + (k : Int) - o1.2).toNat
              = (inter.y - o1.2 + (k : Int)).toNat from by omega]
        exact hocc1.2
      · unfold occupiedWorldB
        simp only [Bool.and_eq_true, decide_eq_true_eq, Bool.not_eq_true']
        refine ⟨⟨⟨⟨by omega, by omega⟩, by omega⟩, by omega⟩, ?_⟩
        rw [show (inter.y + (k : Int) - o2.2).toNat
              = (inter.y - o2.2 + (k : Int)).toNat from by omega]
        exact hocc2.2

set_option maxRecDepth 40000 in
/-- Witness: two copies of `buf_one` at the same offset collide at
`(0,0,1,1)`, and that rectangle indeed contains a doubly occupied pixel. -/
theorem collide_sound_aligned_witness :
    anyOverlapIn ⟨0, 0, 1, 1⟩ buf_one buf_one (0, 0) (0, 0) = true :=
  collide_sound_aligned buf_one buf_one (.Leaf leaf_one) (.Leaf leaf_one)
    (0, 0) (0, 0) ⟨0, 0, 1, 1⟩ rfl (by decide) rfl (by decide)
    (by rfl) (by rfl) (by rfl)

/-- C6 amended: the construction's occupancy convention. For an aligned
leaf, a bit is set exactly when the pixel's whole packed alpha byte is
non-zero (`is_trans` tests `alpha == 0`): occupancy follows the full
byte — and hence the visible alpha nibble — not the low collision bits
alone. -/
theorem occupancy_is_whole_alpha (buf : RgbaImage) (l : MeshLeaf) (h : Nat)
    (hh : h ≤ 16)
    (hl : MeshLeaf.from_buf buf ⟨0, 16, 0, h⟩ = some l) :
    ∀ x y : Nat, x < 16 → y < 16 →
      (Nat.testBit (l.inner.getD y 0) (15 - x) = true ↔
        (y < h ∧ (buf.pix x y).a ≠ 0)) := by
  intro x y hx hy
  rw [leaf_bit_aligned hh hl x y hx hy]
  unfold is_trans
  constructor
  · rintro ⟨h1, h2⟩
    exact ⟨h1, by simpa using h2⟩
  · rintro ⟨h1, h2⟩
    exact ⟨h1, by simpa using h2⟩

set_option maxRecDepth 40000 in
/-- Witness: the high-nibble pixel of `buf_high_nibble` (collision bits 0,
alpha byte 128) sets its leaf bit. -/
theorem occupancy_is_whole_alpha_witness :
    Nat.testBit (leaf_one.inner.getD 0 0) (15 - 0) = true ↔
      (0 < 1 ∧ (buf_high_nibble.pix 0 0).a ≠ 0) :=
  occupancy_is_whole_alpha buf_high_nibble leaf_one 1 (by decide) (by rfl)
    0 0 (by decide) (by decide)

/-- The number of enumerated cells of a range. -/
theorem cells_length (r : RectRange Nat) :
    r.cells.length = (r.ye - r.ys) * (r.xe - r.xs) := by
  unfold RectRange.cells
  rw [List.length_flatten, List.map_map]
  have hmap : List.map (List.length ∘ fun y => List.map (fun x => (x, y))
        (List.range' r.xs (r.xe - r.xs))) (List.range' r.ys (r.ye - r.ys))
      = List.map (fun _ => r.xe - r.xs) (List.range' r.ys (r.ye - r.ys)) := by
    apply List.map_congr_left
    intro y hy
    simp
  rw [hmap, List.map_const', List.sum_replicate, List.length_range']
  simp [smul_eq_mul]

/-- Unpacking `all_trans`. -/
theorem all_trans_spec {buf : RgbaImage} (h : all_trans buf = true) :
    ∀ x y : Nat, x < buf.width → y < buf.height → is_trans (buf.pix x y) = true := by
  intro x y hx hy
  unfold all_trans at h
  rw [List.all_eq_true] at h
  have h1 : ((List.range buf.height).all fun y => is_trans (buf.pix x y)) = true :=
    h x (List.mem_range.mpr hx)
  rw [List.all_eq_true] at h1
  exact h1 y (List.mem_range.mpr hy)

/-- `get_scale` yields 1 only up to one tile. -/
theorem get_scale_one {m : Nat} (h : get_scale m = some 1) : m ≤ 16 := by
  by_cases h16 : m ≤ 16
  · exact h16
  · exfalso
    unfold get_scale at h
    rw [if_neg h16] at h
    split_ifs at h <;> simp_all

/-- A successful range intersection stays inside the left argument. -/
theorem inter_sub_left {a b c : RectRange Nat} (h : RectRange.inter a b = some c) :
    c.xe ≤ a.xe ∧ c.ye ≤ a.ye := by
  unfold RectRange.inter RectRange.new at h
  split at h
  case isTrue hc =>
    rw [Option.some_inj] at h
    subst h
    constructor <;> simp
  case isFalse => exact absurd h (by simp)

/-- If the recursive call never yields a subtree on subranges, the
quadrant loop started from an empty accumulator never reports a box. -/
theorem build_children_none (go : RectRange Nat → Except Unit (Option MeshTree))
    (range : RectRange Nat) (cscale : Nat)
    (hgo : ∀ r : RectRange Nat, r.xe ≤ range.xe → r.ye ≤ range.ye →
      ∀ t, go r ≠ .ok (some t)) :
    ∀ (dirs : List TileDir) (cs : MeshChildren) (bbox : DotRect),
      build_children go range cscale dirs none ≠ .ok (cs, some bbox) := by
  intro dirs
  induction dirs with
  | nil =>
    intro cs bbox h
    simp [build_children] at h
  | cons dir rest ih =>
    intro cs bbox h
    unfold build_children at h
    dsimp only [] at h
    have hfc : RectRange.from_corners
        ((dir.nx * cscale * 16, dir.ny * cscale * 16) : Nat × Nat)
        ((dir.nx * cscale * 16 + cscale * 16, dir.ny * cscale * 16 + cscale * 16) : Nat × Nat)
        = some ⟨dir.nx * cscale * 16, dir.nx * cscale * 16 + cscale * 16,
            dir.ny * cscale * 16, dir.ny * cscale * 16 + cscale * 16⟩ := by
      unfold RectRange.from_corners RectRange.new
      rw [if_pos (by constructor <;> omega)]
    rw [hfc] at h
    dsimp only [] at h
    cases hint : range.inter ⟨dir.nx * cscale * 16, dir.nx * cscale * 16 + cscale * 16,
        dir.ny * cscale * 16, dir.ny * cscale * 16 + cscale * 16⟩ with
    | none =>
      rw [hint] at h
      exact ih cs bbox h
    | some inter =>
      rw [hint] at h
      dsimp only [] at h
      obtain ⟨hsx, hsy⟩ := inter_sub_left hint
      cases hgr : go inter with
      | error e =>
        rw [hgr] at h
        cases h
      | ok o =>
        rw [hgr] at h
        cases o with
        | none => exact ih cs bbox h
        | some t => exact hgo inter hsx hsy t hgr
    
/-- A fully transparent buffer never yields a subtree at any fuel, on any
range inside the buffer. -/
theorem from_buf_trans_no_tree (buf : RgbaImage) (ht : all_trans buf = true) :
    ∀ (fuel : Nat) (range : RectRange Nat),
      range.xe ≤ buf.width → range.ye ≤ buf.height →
      ∀ t, MeshTree.from_buf_ buf fuel range ≠ .ok (some t) := by
  intro fuel
  induction fuel with
  | zero =>
    intro range hx hy t h
    exact absurd h (by simp [MeshTree.from_buf_])
  | succ fuel ih =>
    intro range hx hy t h
    unfold MeshTree.from_buf_ at h
    cases hsc : get_scale (max range.xlen range.ylen) with
    | none =>
      rw [hsc] at h
      exact absurd h (by simp)
    | some scale =>
      rw [hsc] at h
      dsimp only [] at h
      by_cases h1 : scale = 1
      · rw [if_pos h1] at h
        subst h1
        have hdim := get_scale_one hsc
        have hxl : range.xlen ≤ 16 := le_trans (le_max_left _ _) hdim
        have hyl : range.ylen ≤ 16 := le_trans (le_max_right _ _) hdim
        unfold RectRange.xlen at hxl
        unfold RectRange.ylen at hyl
        have hnone : MeshLeaf.from_buf buf range = none := by
          rw [leaf_from_buf_none_iff (by
            rw [cells_length]
            exact le_trans (Nat.mul_le_mul hyl hxl) (by norm_num))]
          intro c hc
          rw [mem_cells] at hc
          exact all_trans_spec ht c.1 c.2 (by omega) (by omega)
        rw [hnone] at h
        exact absurd h (by simp)
      · rw [if_neg h1] at h
        cases hb : build_children (MeshTree.from_buf_ buf fuel) range (scale / 2)
            TileDir.variants none with
        | error e =>
          rw [hb] at h
          cases h
        | ok p =>
          obtain ⟨cs, bb⟩ := p
          rw [hb] at h
          cases bb with
          | none =>
            dsimp only [] at h
            exact absurd h (by simp)
          | some bbox =>
            exact build_children_none (MeshTree.from_buf_ buf fuel) range (scale / 2)
              (fun r hrx hry => ih r (le_trans hrx hx) (le_trans hry hy))
              TileDir.variants cs bbox hb

/-- Once the quadrant accumulator holds a box, the loop reports a box. -/
theorem build_children_acc_some (go : RectRange Nat → Except Unit (Option MeshTree))
    (range : RectRange Nat) (cscale : Nat) :
    ∀ (dirs : List TileDir) (b0 : DotRect) (cs : MeshChildren) (bb : Option DotRect),
      build_children go range cscale dirs (some b0) = .ok (cs, bb) →
      ∃ b2, bb = some b2 := by
  intro dirs
  induction dirs with
  | nil =>
    intro b0 cs bb h
    unfold build_children at h
    simp only [Except.ok.injEq, Prod.mk.injEq] at h
    exact ⟨b0, h.2.symm⟩
  | cons dir rest ih =>
    intro b0 cs bb h
    unfold build_children at h
    dsimp only [] at h
    have hfc : RectRange.from_corners
        ((dir.nx * cscale * 16, dir.ny * cscale * 16) : Nat × Nat)
        ((dir.nx * cscale * 16 + cscale * 16, dir.ny * cscale * 16 + cscale * 16) : Nat × Nat)
        = some ⟨dir.nx * cscale * 16, dir.nx * cscale * 16 + cscale * 16,
            dir.ny * cscale * 16, dir.ny * cscale * 16 + cscale * 16⟩ := by
      unfold RectRange.from_corners RectRange.new
      rw [if_pos (by constructor <;> omega)]
    rw [hfc] at h
    dsimp only [] at h
    cases hint : range.inter ⟨dir.nx * cscale * 16, dir.nx * cscale * 16 + cscale * 16,
        dir.ny * cscale * 16, dir.ny * cscale * 16 + cscale * 16⟩ with
    | none =>
      rw [hint] at h
      exact ih b0 cs bb h
    | some inter =>
      rw [hint] at h
      dsimp only [] at h
      cases hgr : go inter with
      | error e =>
        rw [hgr] at h
        cases h
      | ok o =>
        rw [hgr] at h
        cases o with
        | none => exact ih b0 cs bb h
        | some t =>
          dsimp only [] at h
          cases hrest : build_children go range cscale rest
              (some (b0.union (slide_rect t.bbox
                (((dir.nx * cscale * 16 : Nat) : Int),
                  ((dir.ny * cscale * 16 : Nat) : Int))))) with
          | error e =>
            rw [hrest] at h
            cases h
          | ok p =>
            obtain ⟨cs2, bb2⟩ := p
            rw [hrest] at h
            simp only [Except.ok.injEq, Prod.mk.injEq] at h
            obtain ⟨b2, hb2⟩ := ih _ cs2 bb2 hrest
            exact ⟨b2, by rw [← h.2, hb2]⟩

/-- If some listed quadrant intersects the region and its recursive call
yields a subtree, the loop cannot finish with an empty accumulator. -/
theorem build_children_hit (go : RectRange Nat → Except Unit (Option MeshTree))
    (range : RectRange Nat) (cscale : Nat) :
    ∀ (dirs : List TileDir) (acc : Option DotRect) (d : TileDir), d ∈ dirs →
      (∀ inter : RectRange Nat,
        range.inter ⟨d.nx * cscale * 16, d.nx * cscale * 16 + cscale * 16,
          d.ny * cscale * 16, d.ny * cscale * 16 + cscale * 16⟩ = some inter →
        ∃ t, go inter = .ok (some t)) →
      (∃ inter : RectRange Nat,
        range.inter ⟨d.nx * cscale * 16, d.nx * cscale * 16 + cscale * 16,
          d.ny * cscale * 16, d.ny * cscale * 16 + cscale * 16⟩ = some inter) →
      ∀ cs : MeshChildren, build_children go range cscale dirs acc ≠ .ok (cs, none) := by
  intro dirs
  induction dirs with
  | nil =>
    intro acc d hd
    cases hd
  | cons dir rest ih =>
    intro acc d hd hgo hex cs h
    have hfc : RectRange.from_corners
        ((dir.nx * cscale * 16, dir.ny * cscale * 16) : Nat × Nat)
        ((dir.nx * cscale * 16 + cscale * 16, dir.ny * cscale * 16 + cscale * 16) : Nat × Nat)
        = some ⟨dir.nx * cscale * 16, dir.nx * cscale * 16 + cscale * 16,
            dir.ny * cscale * 16, dir.ny * cscale * 16 + cscale * 16⟩ := by
      unfold RectRange.from_corners RectRange.new
      rw [if_pos (by constructor <;> omega)]
    cases acc with
    | none =>
      unfold build_children at h
      dsimp only [] at h
      rw [hfc] at h
      dsimp only [] at h
      rcases List.mem_cons.mp hd with rfl | hd'
      · obtain ⟨inter, hi⟩ := hex
        rw [hi] at h
        dsimp only [] at h
        obtain ⟨t, hgt⟩ := hgo inter hi
        rw [hgt] at h
        dsimp only [] at h
        cases hrest : build_children go range cscale rest
            (some (slide_rect t.bbox
              (((d.nx * cscale * 16 : Nat) : Int),
                ((d.ny * cscale * 16 : Nat) : Int)))) with
        | error e =>
          rw [hrest] at h
          cases h
        | ok p =>
          obtain ⟨cs2, bb2⟩ := p
          rw [hrest] at h
          simp only [Except.ok.injEq, Prod.mk.injEq] at h
          obtain ⟨b2, hb2⟩ := build_children_acc_some go range cscale rest _ cs2 bb2 hrest
          rw [hb2] at h
          cases h.2
      · cases hint : range.inter ⟨dir.nx * cscale * 16, dir.nx * cscale * 16 + cscale * 16,
            dir.ny * cscale * 16, dir.ny * cscale * 16 + cscale * 16⟩ with
        | none =>
          rw [hint] at h
          exact ih none d hd' hgo hex cs h
        | some inter =>
          rw [hint] at h
          dsimp only [] at h
          cases hgr : go inter with
          | error e =>
            rw [hgr] at h
            cases h
          | ok o =>
            rw [hgr] at h
            cases o with
            | none => exact ih none d hd' hgo hex cs h
            | some t =>
              dsimp only [] at h
              cases hrest : build_children go range cscale rest
                  (some (slide_rect t.bbox
                    (((dir.nx * cscale * 16 : Nat) : Int),
                      ((dir.ny * cscale * 16 : Nat) : Int)))) with
              | error e =>
                rw [hrest] at h
                cases h
              | ok p =>
                obtain ⟨cs2, bb2⟩ := p
                rw [hrest] at h
                simp only [Except.ok.injEq, Prod.mk.injEq] at h
                obtain ⟨b2, hb2⟩ := build_children_acc_some go range cscale rest _ cs2 bb2 hrest
                rw [hb2] at h
                cases h.2
    | some b0 =>
      exact absurd h (by
        intro hcontra
        obtain ⟨b2, hb2⟩ := build_children_acc_some go range cscale (dir :: rest) b0 cs none hcontra
        cases hb2)

/-- An occupied cell inside a one-tile range forces a leaf. -/
theorem from_buf_leaf_some {buf : RgbaImage} {range : RectRange Nat} (fuel : Nat)
    (hxl : range.xlen ≤ 16) (hyl : range.ylen ≤ 16)
    {c : Nat × Nat} (hc : c ∈ range.cells)
    (hocc : is_trans (buf.pix c.1 c.2) = false) :
    ∃ t, MeshTree.from_buf_ buf (fuel + 1) range = .ok (some t) := by
  unfold MeshTree.from_buf_
  rw [show get_scale (max range.xlen range.ylen) = some 1 from by
    unfold get_scale
    rw [if_pos (by omega)]]
  dsimp only []
  rw [if_pos rfl]
  have hlen : range.cells.length ≤ 256 := by
    rw [cells_length]
    unfold RectRange.xlen at hxl
    unfold RectRange.ylen at hyl
    exact le_trans (Nat.mul_le_mul hyl hxl) (by norm_num)
  cases hfb : MeshLeaf.from_buf buf range with
  | none =>
    have := (leaf_from_buf_none_iff hlen).mp hfb c hc
    rw [hocc] at this
    cases this
  | some l =>
    exact ⟨.Leaf l, by rfl⟩

/-- A buffer of at most two tiles a side with an occupied pixel always
yields a tree. -/
theorem from_buf_some_of_occupied {buf : RgbaImage}
    (hw : buf.width ≤ 32) (hh : buf.height ≤ 32)
    {x y : Nat} (hx : x < buf.width) (hy : y < buf.height)
    (hocc : is_trans (buf.pix x y) = false) :
    ∃ t, MeshTree.from_buf buf = .ok (some t) := by
  unfold MeshTree.from_buf
  rw [show RectRange.zero_start buf.width buf.height
      = some ⟨0, buf.width, 0, buf.height⟩ from by
    unfold RectRange.zero_start RectRange.new
    rw [if_pos ⟨Nat.zero_le _, Nat.zero_le _⟩]]
  have hmem : (x, y) ∈ RectRange.cells ⟨0, buf.width, 0, buf.height⟩ :=
    mem_cells.mpr ⟨Nat.zero_le _, hx, Nat.zero_le _, hy⟩
  by_cases h16 : buf.width ≤ 16 ∧ buf.height ≤ 16
  · exact from_buf_leaf_some 5
      (by show buf.width - 0 ≤ 16; omega)
      (by show buf.height - 0 ≤ 16; omega) hmem hocc
  · unfold MeshTree.from_buf_
    rw [show get_scale (max (RectRange.xlen (⟨0, buf.width, 0, buf.height⟩ : RectRange Nat))
        (RectRange.ylen (⟨0, buf.width, 0, buf.height⟩ : RectRange Nat))) = some 2 from by
      have hxe : RectRange.xlen (⟨0, buf.width, 0, buf.height⟩ : RectRange Nat)
          = buf.width := rfl
      have hye : RectRange.ylen (⟨0, buf.width, 0, buf.height⟩ : RectRange Nat)
          = buf.height := rfl
      rw [hxe, hye]
      unfold get_scale
      rw [if_neg (by omega), if_pos (by omega)]]
    dsimp only []
    rw [if_neg (by omega)]
    cases hb : build_children (MeshTree.from_buf_ buf 5)
        (⟨0, buf.width, 0, buf.height⟩ : RectRange Nat) (2 / 2) TileDir.variants none with
    | error e =>
      cases e
      exact absurd hb (build_children_no_error (MeshTree.from_buf_ buf 5)
        (⟨0, buf.width, 0, buf.height⟩ : RectRange Nat) (2 / 2)
        (fun r hrx hry => from_buf_no_error_16 buf 5 (by omega) r (by omega) (by omega))
        TileDir.variants none)
    | ok p =>
      obtain ⟨cs, bb⟩ := p
      cases bb with
      | some bbox =>
        exact ⟨_, rfl⟩
      | none =>
        exfalso
        set d : TileDir :=
          if x < 16 then (if y < 16 then .LeftUp else .LeftDown)
          else (if y < 16 then .RightUp else .RightDown) with hdd
        have hdnx : d.nx * (2 / 2) * 16 ≤ x ∧ x < d.nx * (2 / 2) * 16 + (2 / 2) * 16 := by
          rw [hdd]
          split_ifs <;> simp only [TileDir.nx] <;> omega
        have hdny : d.ny * (2 / 2) * 16 ≤ y ∧ y < d.ny * (2 / 2) * 16 + (2 / 2) * 16 := by
          rw [hdd]
          split_ifs <;> simp only [TileDir.ny] <;> omega
        have hd : d ∈ TileDir.variants := by
          rw [hdd]
          split_ifs <;> decide
        have hex : RectRange.inter (⟨0, buf.width, 0, buf.height⟩ : RectRange Nat)
            ⟨d.nx * (2 / 2) * 16, d.nx * (2 / 2) * 16 + (2 / 2) * 16,
              d.ny * (2 / 2) * 16, d.ny * (2 / 2) * 16 + (2 / 2) * 16⟩
            = some ⟨max 0 (d.nx * (2 / 2) * 16), min buf.width (d.nx * (2 / 2) * 16 + (2 / 2) * 16),
                max 0 (d.ny * (2 / 2) * 16), min buf.height (d.ny * (2 / 2) * 16 + (2 / 2) * 16)⟩ := by
          unfold RectRange.inter RectRange.new
          rw [if_pos (by
            refine ⟨?_, ?_⟩
            · show max 0 (d.nx * (2 / 2) * 16)
                ≤ min buf.width (d.nx * (2 / 2) * 16 + (2 / 2) * 16)
              omega
            · show max 0 (d.ny * (2 / 2) * 16)
                ≤ min buf.height (d.ny * (2 / 2) * 16 + (2 / 2) * 16)
              omega)]
        refine build_children_hit (MeshTree.from_buf_ buf 5)
          (⟨0, buf.width, 0, buf.height⟩ : RectRange Nat) (2 / 2) TileDir.variants none
          d hd ?_ ⟨_, hex⟩ cs hb
        intro inter hi
        rw [hex, Option.some_inj] at hi
        subst hi
        have hmem2 : (x, y) ∈ RectRange.cells ⟨max 0 (d.nx * (2 / 2) * 16),
            min buf.width (d.nx * (2 / 2) * 16 + (2 / 2) * 16),
            max 0 (d.ny * (2 / 2) * 16),
            min buf.height (d.ny * (2 / 2) * 16 + (2 / 2) * 16)⟩ := by
          rw [mem_cells]
          refine ⟨?_, ?_, ?_, ?_⟩
          · show max 0 (d.nx * (2 / 2) * 16) ≤ x
            omega
          · show x < min buf.width (d.nx * (2 / 2) * 16 + (2 / 2) * 16)
            omega
          · show max 0 (d.ny * (2 / 2) * 16) ≤ y
            omega
          · show y < min buf.height (d.ny * (2 / 2) * 16 + (2 / 2) * 16)
            omega
        exact from_buf_leaf_some 4
          (by show min buf.width (d.nx * (2 / 2) * 16 + (2 / 2) * 16)
                - max 0 (d.nx * (2 / 2) * 16) ≤ 16
              omega)
          (by show min buf.height (d.ny * (2 / 2) * 16 + (2 / 2) * 16)
                - max 0 (d.ny * (2 / 2) * 16) ≤ 16
              omega)
          hmem2 hocc

/-- A fully transparent buffer of accepted size constructs no tree and
does not panic: the result is exactly `Ok(None)`. -/
theorem from_buf_trans_ok_none {buf : RgbaImage}
    (hw : buf.width ≤ 256) (hh : buf.height ≤ 256) (ht : all_trans buf = true) :
    MeshTree.from_buf buf = .ok none := by
  unfold MeshTree.from_buf
  rw [show RectRange.zero_start buf.width buf.height
      = some ⟨0, buf.width, 0, buf.height⟩ from by
    unfold RectRange.zero_start RectRange.new
    rw [if_pos ⟨Nat.zero_le _, Nat.zero_le _⟩]]
  dsimp only []
  have hne : MeshTree.from_buf_ buf 6 ⟨0, buf.width, 0, buf.height⟩ ≠ .error () :=
    from_buf_no_error_256 buf 6 (by omega) _
      (by show buf.width - 0 ≤ 256; omega) (by show buf.height - 0 ≤ 256; omega)
  have hns := from_buf_trans_no_tree buf ht 6 ⟨0, buf.width, 0, buf.height⟩
    (Nat.le_refl _) (Nat.le_refl _)
  cases hfb : MeshTree.from_buf_ buf 6 ⟨0, buf.width, 0, buf.height⟩ with
  | error e =>
    cases e
    exact absurd hfb hne
  | ok o =>
    cases o with
    | none => rfl
    | some t => exact absurd hfb (by intro hcc; exact hns t hcc)

/-- C5 amended: absence tracks emptiness of the *scanned* cells, and a
fully transparent image yields no `Frame` at all. (i) `MeshLeaf::from_buf`
returns `None` exactly when every cell of its region is transparent, for
any region the 256-cell tile scan covers. (ii) Up to two tiles a side
(max dimension ≤ 32, where the quadrants still cover the buffer),
`MeshTree::from_buf` returns `Ok(None)` exactly when the whole buffer is
transparent; beyond that the quadrant gap breaks the "exactly"
(counterexample `buf_e`). (iii) For a fully transparent image of accepted
size, `Frame::from_buf` propagates the absence and returns no `Frame` —
not a `Frame` with no collision tree as the claim states. -/
theorem absence_iff_empty_scan (buf : RgbaImage) (name : String) :
    (∀ range : RectRange Nat, range.cells.length ≤ 256 →
      (MeshLeaf.from_buf buf range = none ↔
        ∀ c ∈ range.cells, is_trans (buf.pix c.1 c.2) = true)) ∧
    (buf.width ≤ 32 → buf.height ≤ 32 →
      (MeshTree.from_buf buf = .ok none ↔ all_trans buf = true)) ∧
    (buf.width ≤ 256 → buf.height ≤ 256 → all_trans buf = true →
      Frame.from_buf buf name = .ok none) := by
  refine ⟨fun range hr => leaf_from_buf_none_iff hr, ?_, ?_⟩
  · intro hw hh
    constructor
    · intro hok
      by_contra hnt
      have hocc : ∃ x y, x < buf.width ∧ y < buf.height ∧
          is_trans (buf.pix x y) = false := by
        by_contra hno
        push_neg at hno
        apply hnt
        unfold all_trans
        rw [List.all_eq_true]
        intro x hx
        show ((List.range buf.height).all fun y => is_trans (buf.pix x y)) = true
        rw [List.all_eq_true]
        intro y hy
        cases hv : is_trans (buf.pix x y) with
        | false =>
          exact absurd hv (hno x y (List.mem_range.mp hx) (List.mem_range.mp hy))
        | true => rfl
      obtain ⟨x, y, hx, hy, hv⟩ := hocc
      obtain ⟨t, hts⟩ := from_buf_some_of_occupied hw hh hx hy hv
      rw [hok] at hts
      exact absurd hts (by simp)
    · intro ht
      exact from_buf_trans_ok_none (by omega) (by omega) ht
  · intro hw hh ht
    have hmesh := from_buf_trans_ok_none hw hh ht
    unfold Frame.from_buf
    cases hz : RectRange.zero_start (tile_num buf.width) (tile_num buf.height) with
    | none => rfl
    | some range0 =>
      dsimp only []
      rw [hmesh]

set_option maxRecDepth 40000 in
/-- Witness: the fully transparent `buf_clear` yields `Ok(None)` at both
the tree and the frame level. -/
theorem absence_iff_empty_scan_witness :
    MeshTree.from_buf buf_clear = .ok none ∧
    Frame.from_buf buf_clear "s" = .ok none := by
  have h := absence_iff_empty_scan buf_clear "s"
  exact ⟨(h.2.1 (by decide) (by decide)).mpr (by decide),
    h.2.2 (by decide) (by decide) (by decide)⟩

end Altena
